import Mathlib

/-!
Verification of the portier-broker core against its specification.

The Rust sources under `src/` are shallowly embedded below. Strings are
modelled as `List Char` (Rust `str` at char granularity; byte indices in
the source always fall on char boundaries at the points where they are
used, which is argued at each such definition). Byte strings are
`List Nat` with every element below 256. Machine integers are `Int` with
explicit i64 bounds where overflow matters. External crates (idna,
openssl, serde_json, url) are modelled as oracle parameters, with the
properties the repository relies on stated as explicit hypotheses.

Layout: all definitions first, then supporting lemmas, then one theorem
per claim (with witnesses and counterexamples).
-/

/-- Shorthand to write character-list literals. -/
def chars (s : String) : List Char := s.toList

/-! ## Generic list helpers -/

/-- Split a character list on a separator character, keeping empty segments,
matching Rust `str::split(sep)`. -/
def splitOnChar (sep : Char) : List Char → List (List Char)
  | [] => [[]]
  | c :: rest =>
    if c = sep then [] :: splitOnChar sep rest
    else
      match splitOnChar sep rest with
      | s :: ss => (c :: s) :: ss
      | [] => [[c]]

/-- Index of the rightmost occurrence of a character, matching
Rust `str::rfind(char)` (at char granularity). -/
def rfindIdx (c : Char) : List Char → Option Nat
  | [] => none
  | x :: xs =>
    match rfindIdx c xs with
    | some i => some (i + 1)
    | none => if x = c then some 0 else none
/-! ## EmailAddress (src/email_address.rs)

An `EmailAddress` in the source stores a serialization plus the byte offset
of the separating `'@'`; every value is built through `from_parts(local,
domain)`, so we represent it by those two components. The source
serialization is `local ++ "@" ++ domain` and `PartialEq` compares
serializations only. -/

structure EmailAddress where
  localPart : List Char
  domainPart : List Char
deriving DecidableEq, Inhabited

/-- The stored serialization, `format!("{}@{}", local, domain)`. -/
def EmailAddress.serialization (e : EmailAddress) : List Char :=
  e.localPart ++ '@' :: e.domainPart

/-- `EmailAddress::from_parts`. -/
def EmailAddress.from_parts (localPart domainPart : List Char) : EmailAddress :=
  ⟨localPart, domainPart⟩

/-- Rust `PartialEq for EmailAddress`: equality of serializations. -/
def EmailAddress.beqSer (a b : EmailAddress) : Bool :=
  a.serialization = b.serialization

/-- `is_invalid_domain_char` from src/email_address.rs. -/
def is_invalid_domain_char (c : Char) : Bool :=
  c = '\x00' ∨ c = '\t' ∨ c = '\n' ∨ c = '\r' ∨ c = ' ' ∨ c = '#' ∨ c = '%' ∨
  c = '/' ∨ c = ':' ∨ c = '?' ∨ c = '@' ∨ c = '[' ∨ c = '\\' ∨ c = ']'

/-- `ParseEmailError` from src/email_address.rs (the `InvalidIdna` payload,
an `idna::Errors`, carries no information we use). -/
inductive ParseEmailError where
  | NoSeparator
  | EmptyLocal
  | InvalidIdna
  | EmptyDomain
  | InvalidDomainChars
  | RawAddrNotAllowed
deriving DecidableEq

/-- One octet of a dotted-quad IPv4 literal per Rust `Ipv4Addr::from_str`:
1–3 decimal digits, no leading zero (except "0" itself), value ≤ 255. -/
def isIpv4Octet (s : List Char) : Bool :=
  s ≠ [] ∧ s.all Char.isDigit ∧ (s.headI = '0' → s = ['0']) ∧
  (s.foldl (fun acc c => acc * 10 + c.toNat - '0'.toNat) 0) ≤ 255

/-- Rust `domain.parse::<std::net::Ipv4Addr>().is_ok()`: exactly four
'.'-separated octets. -/
def parsesAsIpv4 (s : List Char) : Bool :=
  let segs := splitOnChar '.' s
  segs.length = 4 ∧ segs.all isIpv4Octet

/-- `EmailAddress::from_str` from src/email_address.rs.

`lower` models Rust `str::to_lowercase` and `toAscii` models
`idna::domain_to_ascii` (both external crates, passed as oracles). The
source splits at the byte offset of the rightmost `'@'`; since `'@'` is a
single-byte char that offset is a char boundary, so char-level take/drop
around the rightmost `'@'` is the same split. -/
def from_str (lower : List Char → List Char)
    (toAscii : List Char → Option (List Char))
    (input : List Char) : Except ParseEmailError EmailAddress :=
  match rfindIdx '@' input with
  | none => .error .NoSeparator
  | some local_end =>
    let localPart := lower (input.take local_end)
    if localPart = [] then .error .EmptyLocal
    else
      match toAscii (input.drop (local_end + 1)) with
      | none => .error .InvalidIdna
      | some domain =>
        if domain = [] then .error .EmptyDomain
        else if domain.any is_invalid_domain_char then .error .InvalidDomainChars
        else if parsesAsIpv4 domain then .error .RawAddrNotAllowed
        else .ok (EmailAddress.from_parts localPart domain)

/-- Domain rewrite in `normalize_google`: `googlemail.com` becomes
`gmail.com`. -/
def EmailAddress.mapGoogleDomain (d : List Char) : List Char :=
  if d = chars "googlemail.com" then chars "gmail.com" else d

/-- Local-part truncation in `normalize_google`: slice up to the first `'+'`
(`local().find('+')` plus `&local[..pos]`). -/
def EmailAddress.trimPlus : List Char → List Char
  | [] => []
  | c :: rest => if c = '+' then [] else c :: trimPlus rest

/-- Dot removal in `normalize_google`: `local.replace(".", "")`. -/
def EmailAddress.stripDots (l : List Char) : List Char :=
  l.filter (fun c => c ≠ '.')

/-- `EmailAddress::normalize_google` from src/email_address.rs. -/
def EmailAddress.normalize_google (e : EmailAddress) : EmailAddress :=
  let domain := mapGoogleDomain e.domainPart
  let localPart := trimPlus e.localPart
  let localPart := stripDots localPart
  EmailAddress.from_parts localPart domain
/-! ## Bytes, base64url, UTF-8, SHA-256

Byte-level helpers used by src/crypto.rs. `to_base64`/`from_base64` model
`rustc_serialize::base64` with the `URL_SAFE` configuration (URL-safe
alphabet, no padding, no line wrapping); `from_base64` accepts both
alphabets, skips CR/LF and allows trailing `'='`, as the crate does.
`natToBytes` models openssl `BigNum::to_vec` (minimal big-endian bytes) and
`bytesToNat` models `BigNum::from_slice`. `charUtf8` is standard UTF-8.
`sha256` is FIPS 180-4 SHA-256, modelling the openssl hasher. -/

/-- The base64 alphabet character for a 6-bit value (URL-safe set). -/
def b64EncChar (k : Nat) : Char :=
  (chars "ABCDEFGHIJKLMNOPQRSTUVWXYZabcdefghijklmnopqrstuvwxyz0123456789-_").getD k 'A'

/-- The 6-bit value of a base64 character; both `+/` and `-_` decode, as in
`rustc_serialize::base64::FromBase64`. -/
def b64DecVal (c : Char) : Option Nat :=
  if 'A' ≤ c ∧ c ≤ 'Z' then some (c.toNat - 'A'.toNat)
  else if 'a' ≤ c ∧ c ≤ 'z' then some (c.toNat - 'a'.toNat + 26)
  else if '0' ≤ c ∧ c ≤ '9' then some (c.toNat - '0'.toNat + 52)
  else if c = '+' ∨ c = '-' then some 62
  else if c = '/' ∨ c = '_' then some 63
  else none

/-- `ToBase64::to_base64` with `URL_SAFE`: 3-byte groups become 4 chars,
a 1- or 2-byte tail becomes 2 or 3 chars, no padding. -/
def to_base64 : List Nat → List Char
  | [] => []
  | [b1] => [b64EncChar (b1 / 4), b64EncChar (b1 % 4 * 16)]
  | [b1, b2] =>
    [b64EncChar (b1 / 4), b64EncChar (b1 % 4 * 16 + b2 / 16), b64EncChar (b2 % 16 * 4)]
  | b1 :: b2 :: b3 :: rest =>
    b64EncChar (b1 / 4) :: b64EncChar (b1 % 4 * 16 + b2 / 16) ::
    b64EncChar (b2 % 16 * 4 + b3 / 64) :: b64EncChar (b3 % 64) :: to_base64 rest

/-- Reassemble bytes from 6-bit groups: 4 sextets give 3 bytes, a tail of 2
or 3 sextets gives 1 or 2 bytes (leftover low bits dropped), a tail of 1 is
an invalid length. -/
def sextetsToBytes : List Nat → Option (List Nat)
  | [] => some []
  | [_] => none
  | [a, b] => some [a * 4 + b / 16]
  | [a, b, c] => some [a * 4 + b / 16, b % 16 * 16 + c / 4]
  | a :: b :: c :: d :: rest =>
    (sextetsToBytes rest).map
      (fun tail => (a * 4 + b / 16) :: (b % 16 * 16 + c / 4) :: (c % 4 * 64 + d) :: tail)

/-- `FromBase64::from_base64`: drop CR/LF, allow only `'='` after the first
`'='`, decode the 6-bit groups. -/
def from_base64 (s : List Char) : Option (List Nat) :=
  if ((s.filter (fun c => c ≠ '\r' ∧ c ≠ '\n')).dropWhile
      (fun c => c ≠ '=')).any (fun c => c ≠ '=') then none
  else
    match ((s.filter (fun c => c ≠ '\r' ∧ c ≠ '\n')).takeWhile
        (fun c => c ≠ '=')).mapM b64DecVal with
    | none => none
    | some sextets => sextetsToBytes sextets

/-- openssl `BigNum::to_vec`: minimal big-endian bytes (empty for zero).
`natToBytesAux` carries fuel to keep the recursion structural; fuel `n`
always suffices for value `n`. -/
def natToBytesAux : Nat → Nat → List Nat
  | _, 0 => []
  | 0, _ + 1 => []
  | fuel + 1, n + 1 => natToBytesAux fuel ((n + 1) / 256) ++ [(n + 1) % 256]

def natToBytes (n : Nat) : List Nat := natToBytesAux n n

/-- openssl `BigNum::from_slice`: big-endian bytes to a number. -/
def bytesToNat (bs : List Nat) : Nat := bs.foldl (fun acc b => acc * 256 + b) 0

/-- Standard UTF-8 encoding of one char (Rust `str::as_bytes` per char). -/
def charUtf8 (c : Char) : List Nat :=
  if c.toNat < 0x80 then [c.toNat]
  else if c.toNat < 0x800 then [0xC0 + c.toNat / 64, 0x80 + c.toNat % 64]
  else if c.toNat < 0x10000 then
    [0xE0 + c.toNat / 4096, 0x80 + c.toNat / 64 % 64, 0x80 + c.toNat % 64]
  else
    [0xF0 + c.toNat / 262144, 0x80 + c.toNat / 4096 % 64,
     0x80 + c.toNat / 64 % 64, 0x80 + c.toNat % 64]

/-- UTF-8 bytes of a string (Rust `str::as_bytes`). -/
def utf8Bytes (s : List Char) : List Nat := s.flatMap charUtf8

/-! ### SHA-256 (FIPS 180-4), as computed by the openssl hasher. -/

def sha256K : List Nat :=
  [1116352408, 1899447441, 3049323471, 3921009573, 961987163,
   1508970993, 2453635748, 2870763221, 3624381080, 310598401,
   607225278, 1426881987, 1925078388, 2162078206, 2614888103,
   3248222580, 3835390401, 4022224774, 264347078, 604807628,
   770255983, 1249150122, 1555081692, 1996064986, 2554220882,
   2821834349, 2952996808, 3210313671, 3336571891, 3584528711,
   113926993, 338241895, 666307205, 773529912, 1294757372,
   1396182291, 1695183700, 1986661051, 2177026350, 2456956037,
   2730485921, 2820302411, 3259730800, 3345764771, 3516065817,
   3600352804, 4094571909, 275423344, 430227734, 506948616,
   659060556, 883997877, 958139571, 1322822218, 1537002063,
   1747873779, 1955562222, 2024104815, 2227730452, 2361852424,
   2428436474, 2756734187, 3204031479, 3329325298]

def w32 (n : Nat) : Nat := n % 4294967296

/-- 32-bit right rotation, expressed arithmetically. -/
def rotr32 (k n : Nat) : Nat := w32 (n / 2 ^ k + n % 2 ^ k * 2 ^ (32 - k))

def shr32 (k n : Nat) : Nat := n / 2 ^ k

/-- Big-endian 8-byte encoding of a (bit-)length. -/
def be64 (n : Nat) : List Nat :=
  [n / 2 ^ 56 % 256, n / 2 ^ 48 % 256, n / 2 ^ 40 % 256, n / 2 ^ 32 % 256,
   n / 2 ^ 24 % 256, n / 2 ^ 16 % 256, n / 2 ^ 8 % 256, n % 256]

/-- SHA-256 padding: append 0x80, zeros, and the 64-bit bit length, to a
multiple of 64 bytes. -/
def sha256Pad (msg : List Nat) : List Nat :=
  let L := msg.length
  let zeros := (64 - (L + 9) % 64) % 64
  msg ++ 0x80 :: List.replicate zeros 0 ++ be64 (8 * L)

/-- Split into 64-byte blocks (fuel-driven to stay structural). -/
def chunks64Aux : Nat → List Nat → List (List Nat)
  | _, [] => []
  | 0, _ :: _ => []
  | fuel + 1, l@(_ :: _) => l.take 64 :: chunks64Aux fuel (l.drop 64)

def chunks64 (l : List Nat) : List (List Nat) := chunks64Aux l.length l

/-- Big-endian 4-byte words of a block. -/
def bytesToWords : List Nat → List Nat
  | b1 :: b2 :: b3 :: b4 :: rest =>
    (b1 * 16777216 + b2 * 65536 + b3 * 256 + b4) :: bytesToWords rest
  | _ => []

/-- Message-schedule extension from 16 to 64 words. -/
def sha256Extend (w : List Nat) : List Nat :=
  (List.range 48).foldl
    (fun w _ =>
      let n := w.length
      let w15 := w.getD (n - 15) 0
      let w2 := w.getD (n - 2) 0
      let s0 := rotr32 7 w15 ^^^ rotr32 18 w15 ^^^ shr32 3 w15
      let s1 := rotr32 17 w2 ^^^ rotr32 19 w2 ^^^ shr32 10 w2
      w ++ [w32 (w.getD (n - 16) 0 + s0 + w.getD (n - 7) 0 + s1)])
    w

/-- One SHA-256 compression round. -/
def sha256Round (st : Nat × Nat × Nat × Nat × Nat × Nat × Nat × Nat)
    (kw : Nat × Nat) : Nat × Nat × Nat × Nat × Nat × Nat × Nat × Nat :=
  let (a, b, c, d, e, f, g, h) := st
  let (k, w) := kw
  let s1 := rotr32 6 e ^^^ rotr32 11 e ^^^ rotr32 25 e
  let ch := e &&& f ^^^ ((e ^^^ 4294967295) &&& g)
  let t1 := w32 (h + s1 + ch + k + w)
  let s0 := rotr32 2 a ^^^ rotr32 13 a ^^^ rotr32 22 a
  let mj := a &&& b ^^^ (a &&& c) ^^^ (b &&& c)
  let t2 := w32 (s0 + mj)
  (w32 (t1 + t2), a, b, c, w32 (d + t1), e, f, g)

/-- Compress one 64-byte block into the running hash state. -/
def sha256Block (hs : List Nat) (block : List Nat) : List Nat :=
  let w := sha256Extend (bytesToWords block)
  let init := (hs.getD 0 0, hs.getD 1 0, hs.getD 2 0, hs.getD 3 0,
               hs.getD 4 0, hs.getD 5 0, hs.getD 6 0, hs.getD 7 0)
  let (a, b, c, d, e, f, g, h) := (sha256K.zip w).foldl sha256Round init
  [w32 (hs.getD 0 0 + a), w32 (hs.getD 1 0 + b), w32 (hs.getD 2 0 + c),
   w32 (hs.getD 3 0 + d), w32 (hs.getD 4 0 + e), w32 (hs.getD 5 0 + f),
   w32 (hs.getD 6 0 + g), w32 (hs.getD 7 0 + h)]

def sha256Init : List Nat :=
  [1779033703, 3144134277, 1013904242, 2773480762,
   1359893119, 2600822924, 528734635, 1541459225]

/-- SHA-256 digest (32 bytes) of a byte string. -/
def sha256 (msg : List Nat) : List Nat :=
  let hs := (chunks64 (sha256Pad msg)).foldl sha256Block sha256Init
  hs.flatMap (fun wd => [wd / 16777216 % 256, wd / 65536 % 256, wd / 256 % 256, wd % 256])
/-- `i64::MIN`. -/
def i64Min : Int := -9223372036854775808

/-- `i64::MAX`. -/
def i64Max : Int := 9223372036854775807

/-! ## JSON values (serde_json `Value`)

An inductive JSON value with the accessors the sources use (`get`,
`as_str`, `as_i64`, `as_array`) and serde_json's `to_string`. Parsing
(`serde_json::de::from_slice`) is an external crate and is passed as an
oracle wherever the sources call it. -/

inductive Json where
  | null
  | bool (b : Bool)
  | num (n : Int)
  | str (s : List Char)
  | arr (xs : List Json)
  | obj (fields : List (List Char × Json))

/-- `Value::get(key)` on an object: the first field with that key. -/
def Json.get (j : Json) (key : List Char) : Option Json :=
  match j with
  | .obj fields =>
    match fields.find? (fun f => f.1 = key) with
    | some f => some f.2
    | none => none
  | _ => none

/-- `Value::as_str`. -/
def Json.as_str : Json → Option (List Char)
  | .str s => some s
  | _ => none

/-- `Value::as_i64`: an integer that fits in i64. -/
def Json.as_i64 : Json → Option Int
  | .num n => if i64Min ≤ n ∧ n ≤ i64Max then some n else none
  | _ => none

/-- `Value::as_array`. -/
def Json.as_array : Json → Option (List Json)
  | .arr xs => some xs
  | _ => none

/-- serde_json string escaping (quote, backslash, control characters). -/
def jsonEscapeChar (c : Char) : List Char :=
  if c = '"' then ['\\', '"']
  else if c = '\\' then ['\\', '\\']
  else if c = '\n' then ['\\', 'n']
  else if c = '\t' then ['\\', 't']
  else if c = '\r' then ['\\', 'r']
  else if c.toNat < 32 then
    ['\\', 'u', '0', '0',
     (chars "0123456789abcdef").getD (c.toNat / 16) '0',
     (chars "0123456789abcdef").getD (c.toNat % 16) '0']
  else [c]

/-- Decimal digits of a natural number (structural via fuel). -/
def natDecimalAux : Nat → Nat → List Char
  | _, 0 => []
  | 0, _ + 1 => []
  | fuel + 1, n + 1 =>
    natDecimalAux fuel ((n + 1) / 10) ++
    [(chars "0123456789").getD ((n + 1) % 10) '0']

def natDecimal (n : Nat) : List Char :=
  if n = 0 then ['0'] else natDecimalAux n n

def intDecimal (n : Int) : List Char :=
  if n < 0 then '-' :: natDecimal n.natAbs else natDecimal n.natAbs

mutual
/-- serde_json `Value::to_string` (compact form; object fields in stored
order). -/
def Json.toChars : Json → List Char
  | .null => chars "null"
  | .bool true => chars "true"
  | .bool false => chars "false"
  | .num n => intDecimal n
  | .str s => '"' :: s.flatMap jsonEscapeChar ++ ['"']
  | .arr xs => '[' :: Json.seqChars xs ++ [']']
  | .obj fields => '{' :: Json.fieldChars fields ++ ['}']

def Json.seqChars : List Json → List Char
  | [] => []
  | [x] => x.toChars
  | x :: y :: rest => x.toChars ++ ',' :: Json.seqChars (y :: rest)

def Json.fieldChars : List (List Char × Json) → List Char
  | [] => []
  | [(k, v)] => '"' :: k.flatMap jsonEscapeChar ++ '"' :: ':' :: v.toChars
  | (k, v) :: f :: rest =>
    ('"' :: k.flatMap jsonEscapeChar ++ '"' :: ':' :: v.toChars) ++
    ',' :: Json.fieldChars (f :: rest)
end

/-! ## Crypto (src/crypto.rs) -/

/-- An openssl RSA private key as far as src/crypto.rs reads it: the public
components `n`, `e` (numbers) plus private material `d` (opaque here). -/
structure Rsa where
  n : Nat
  e : Nat
  d : Nat
deriving DecidableEq

/-- An RSA public key rebuilt by `Rsa::from_public_components(n, e)`. -/
structure RsaPub where
  n : Nat
  e : Nat
deriving DecidableEq

/-- `NamedKey`: key-set id plus key material. -/
structure NamedKey where
  id : List Char
  key : Rsa

/-- The `id` computed by `NamedKey::from_rsa`: URL-safe base64 of
SHA-256 over `e.to_vec() ++ "." ++ n.to_vec()` (`'.'` is byte 46). -/
def namedKeyId (rsa : Rsa) : List Char :=
  to_base64 (sha256 (natToBytes rsa.e ++ 46 :: natToBytes rsa.n))

/-- `NamedKey::from_rsa` from src/crypto.rs. The openssl accessors `e()`,
`n()` and the hasher cannot fail on a loaded key, so the `Result` is always
`Ok`; we return the key directly. -/
def NamedKey.from_rsa (rsa : Rsa) : NamedKey :=
  { id := namedKeyId rsa, key := rsa }

/-- The JWS header built by `sign_jws`: `{"kid": id, "alg": "RS256"}`
(serde_json of that era stores objects as a `BTreeMap`, so `alg`
serializes before `kid`). -/
def jwsHeader (key : NamedKey) : Json :=
  Json.obj [(chars "alg", Json.str (chars "RS256")),
            (chars "kid", Json.str key.id)]

/-- `NamedKey::sign_jws` from src/crypto.rs. `signOracle` models the
openssl RSASSA-PKCS1-v1.5/SHA-256 `Signer` (bytes in, signature bytes
out). -/
def NamedKey.sign_jws (signOracle : List Nat → List Nat) (key : NamedKey)
    (payload : Json) : List Char :=
  let header := (jwsHeader key).toChars
  let payloadStr := payload.toChars
  let input := to_base64 (utf8Bytes header) ++ '.' :: to_base64 (utf8Bytes payloadStr)
  let sig := signOracle (utf8Bytes input)
  input ++ '.' :: to_base64 sig

/-- `NamedKey::public_jwk` from src/crypto.rs. -/
def NamedKey.public_jwk (key : NamedKey) : Json :=
  Json.obj
    [(chars "kty", Json.str (chars "RSA")),
     (chars "alg", Json.str (chars "RS256")),
     (chars "use", Json.str (chars "sig")),
     (chars "kid", Json.str key.id),
     (chars "n", Json.str (to_base64 (natToBytes key.key.n))),
     (chars "e", Json.str (to_base64 (natToBytes key.key.e)))]

/-- The predicate `jwk_key_set_find` filters with: the entry's `kid` equals
the token's and its `use` is `"sig"`. -/
def jwkMatches (kid : List Char) (key_obj : Json) : Bool :=
  decide ((key_obj.get (chars "kid")).bind Json.as_str = some kid) &&
  decide ((key_obj.get (chars "use")).bind Json.as_str = some (chars "sig"))

/-- `jwk_key_set_find` from src/crypto.rs: the unique matching entry's
`n`/`e` fields, base64-decoded and read as big-endian numbers. -/
def jwk_key_set_find (set : Json) (kid : List Char) : Except Unit RsaPub :=
  match (set.get (chars "keys")).bind Json.as_array with
  | none => .error ()
  | some key_objs =>
    match key_objs.filter (jwkMatches kid) with
    | [key_obj] =>
      match (key_obj.get (chars "n")).bind Json.as_str with
      | none => .error ()
      | some nStr =>
        match from_base64 nStr with
        | none => .error ()
        | some nBytes =>
          match (key_obj.get (chars "e")).bind Json.as_str with
          | none => .error ()
          | some eStr =>
            match from_base64 eStr with
            | none => .error ()
            | some eBytes => .ok ⟨bytesToNat nBytes, bytesToNat eBytes⟩
    | _ => .error ()

/-- `verify_jws` from src/crypto.rs. `parseJson` models
`serde_json::de::from_slice`; `rsaVerify` models the openssl `Verifier`
(public key, message bytes, signature bytes). The source decodes all three
segments before slicing `jws[..message_len]`; decoding succeeds only on
ASCII segments, so that byte slice equals the char-level take used here. -/
def verify_jws (parseJson : List Nat → Option Json)
    (rsaVerify : RsaPub → List Nat → List Nat → Bool)
    (jws : List Char) (key_set : Json) : Except Unit Json :=
  match splitOnChar '.' jws with
  | [p0, p1, p2] =>
    match from_base64 p0, from_base64 p1, from_base64 p2 with
    | some d0, some d1, some d2 =>
      match parseJson d0 with
      | none => .error ()
      | some jwt_header =>
        match (jwt_header.get (chars "kid")).bind Json.as_str with
        | none => .error ()
        | some kid =>
          match jwk_key_set_find key_set kid with
          | .error _ => .error ()
          | .ok pub_key =>
            let message_len := p0.length + p1.length + 1
            if rsaVerify pub_key (utf8Bytes (jws.take message_len)) d2 then
              match parseJson d1 with
              | none => .error ()
              | some payload => .ok payload
            else .error ()
    | _, _, _ => .error ()
  | _ => .error ()
/-! ## Error taxonomy (crate error type, as used by the embedded code) -/

/-- `BrokerError` variants reached by the embedded sources. -/
inductive BrokerError where
  | Provider (msg : List Char)
  | ProviderInput (msg : List Char)
  | ProviderCancelled
  | Internal (msg : List Char)
deriving DecidableEq

/-- Provider-class errors: upstream fetch/discovery failures. -/
def BrokerError.isProviderClass : BrokerError → Bool
  | .Provider _ => true
  | _ => false

/-! ## Webfinger discovery (src/webfinger.rs) -/

inductive Relation where
  | Portier
  | Google
deriving DecidableEq, Inhabited

/-- `Relation::from_str`: only the two fixed relation URLs parse. -/
def Relation.from_str (s : List Char) : Except Unit Relation :=
  if s = chars "https://portier.io/specs/auth/1.0/idp" then .ok .Portier
  else if s = chars "https://portier.io/specs/auth/1.0/idp/google" then .ok .Google
  else .error ()

/-- A deserialized (unvalidated) webfinger link. -/
structure LinkDef where
  rel : List Char
  href : List Char

/-- A deserialized webfinger response body. -/
structure DescriptorDef where
  links : List LinkDef

/-- A validated link; `href` holds the serialization of the parsed `Url`
(`Url::as_str`). -/
structure Link where
  rel : Relation
  href : List Char
deriving DecidableEq, Inhabited

/-- `Link::from_de_link` from src/webfinger.rs. `parseUrl` models
`str::parse::<Url>` from the url crate, returning the parsed
serialization. -/
def Link.from_de_link (parseUrl : List Char → Option (List Char))
    (link : LinkDef) : Except Unit Link :=
  match Relation.from_str link.rel, parseUrl link.href with
  | .ok rel, some href => .ok { rel, href }
  | _, _ => .error ()

/-- The broker configuration fields `query` reads. -/
structure AppConfig where
  domain_overrides : List (List Char × List Link)
  public_url : List Char

/-- `query` from src/webfinger.rs, for a given email address.

External collaborators are parameters: `parseUrl` (url crate, for link
validation), `buildUrl` (the outcome of `Url::parse_with_params` on the
webfinger query URL; its value feeds only the fetch, which is itself a
parameter) and `fetchResult` (the outcome of
`store_cache::fetch_json_url`, whose code is outside src/). -/
def webfingerQuery (app : AppConfig)
    (parseUrl : List Char → Option (List Char))
    (buildUrl : Option (List Char))
    (fetchResult : Except BrokerError DescriptorDef)
    (email_addr : EmailAddress) : Except BrokerError (List Link) :=
  match (app.domain_overrides.find? (fun o => o.1 = email_addr.domainPart)) with
  | some mapped => .ok mapped.2
  | none =>
    match buildUrl with
    | none => .error (.Internal (chars "could not build webfinger query url"))
    | some _ =>
      match fetchResult with
      | .error e => .error e
      | .ok descriptor =>
        .ok ((descriptor.links.filterMap
                (fun l => (Link.from_de_link parseUrl l).toOption)).filter
              (fun link => link.href ≠ app.public_url))
/-! ## OIDC bridge callback (src/bridges/oidc.rs)

Only the claim-validation portion of `callback` (lines 212–257) is
embedded: everything before it (session load, configuration fetch, key-set
fetch, signature verification) produces the `bridge_data`, the stored
`email_addr` and the verified `jwt_payload` that this portion consumes, and
those are taken as inputs here. -/

/-- `LEEWAY` from src/bridges/oidc.rs. -/
def LEEWAY : Int := 30

/-- Rust `i64::checked_add` (for operands already in i64 range). -/
def i64CheckedAdd (a b : Int) : Option Int :=
  if i64Min ≤ a + b ∧ a + b ≤ i64Max then some (a + b) else none

/-- Rust `i64::checked_sub` (for operands already in i64 range). -/
def i64CheckedSub (a b : Int) : Option Int :=
  if i64Min ≤ a - b ∧ a - b ≤ i64Max then some (a - b) else none

/-- `OidcBridgeData` from src/bridges/oidc.rs. -/
structure OidcBridgeData where
  link : Link
  origin : List Char
  client_id : List Char
  nonce : List Char

/-- Modelled from the spec: the `try_get_token_field!` macro (defined
outside src/) reads a string claim from the token payload and fails with a
ProviderInput error naming the field when it is missing or not a string. -/
def tryGetTokenStr (payload : Json) (field : List Char) :
    Except BrokerError (List Char) :=
  match (payload.get field).bind Json.as_str with
  | some v => .ok v
  | none => .error (.ProviderInput field)

/-- Modelled from the spec: the `try_get_token_field!` macro with the
`|v| v.as_i64()` accessor, for the numeric `iat`/`exp` claims. -/
def tryGetTokenI64 (payload : Json) (field : List Char) :
    Except BrokerError Int :=
  match (payload.get field).bind Json.as_i64 with
  | some v => .ok v
  | none => .error (.ProviderInput field)

/-- Modelled from the spec: the `check_token_field!` macro (defined outside
src/) fails with a ProviderInput error naming the field when the condition
is false. -/
def checkTokenField (cond : Bool) (field : List Char) :
    Except BrokerError Unit :=
  if cond then .ok () else .error (.ProviderInput field)

/-- The time-claim validation of `callback` (src/bridges/oidc.rs lines
228–232): clamp `exp + LEEWAY` to `i64::MIN` on overflow and
`iat - LEEWAY` to `i64::MAX` on underflow, then require `now < exp` and
`iat <= now`. -/
def checkTimeClaims (expv iatv now : Int) : Except BrokerError Unit :=
  let expv := (i64CheckedAdd expv LEEWAY).getD i64Min
  let iatv := (i64CheckedSub iatv LEEWAY).getD i64Max
  match checkTokenField (decide (now < expv)) (chars "exp") with
  | .error e => .error e
  | .ok _ => checkTokenField (decide (iatv ≤ now)) (chars "iat")

/-- The identity-match step of `callback` (src/bridges/oidc.rs lines
234–257), branching on the stored link's relation. `lower`/`toAscii` are
the oracles of `from_str`, reached through `email.parse()` in the Google
branch. -/
def identityMatch (lower : List Char → List Char)
    (toAscii : List Char → Option (List Char))
    (bridge_data : OidcBridgeData) (email_addr : EmailAddress)
    (jwt_payload : Json) (email : List Char) : Except BrokerError Unit :=
  match bridge_data.link.rel with
  | .Portier =>
    match checkTokenField (decide (email = email_addr.serialization))
        (chars "email") with
    | .error e => .error e
    | .ok _ =>
      match (jwt_payload.get (chars "email_original")).bind Json.as_str with
      | some email_original =>
        checkTokenField (decide (email_original = email_addr.serialization))
          (chars "email_original")
      | none => .ok ()
  | .Google =>
    match from_str lower toAscii email with
    | .error _ => .error (.ProviderInput (chars "failed to parse email"))
    | .ok email_addr2 =>
      let google_email_addr := email_addr2.normalize_google
      let expected := email_addr.normalize_google
      checkTokenField (google_email_addr.beqSer expected) (chars "email")

/-- The claim-validation portion of `callback` from src/bridges/oidc.rs
(lines 214–257): extract the claims in source order, verify
iss/aud/nonce/exp/iat, then match the identity by relation. On success the
source proceeds to `complete_auth`; that continuation is outside this
portion, so success is `Ok ()`. -/
def callbackVerify (lower : List Char → List Char)
    (toAscii : List Char → Option (List Char))
    (bridge_data : OidcBridgeData) (email_addr : EmailAddress)
    (jwt_payload : Json) (now : Int) : Except BrokerError Unit :=
  match tryGetTokenStr jwt_payload (chars "iss") with
  | .error e => .error e
  | .ok iss =>
  match tryGetTokenStr jwt_payload (chars "aud") with
  | .error e => .error e
  | .ok aud =>
  match tryGetTokenStr jwt_payload (chars "email") with
  | .error e => .error e
  | .ok email =>
  match tryGetTokenI64 jwt_payload (chars "iat") with
  | .error e => .error e
  | .ok iatv =>
  match tryGetTokenI64 jwt_payload (chars "exp") with
  | .error e => .error e
  | .ok expv =>
  match tryGetTokenStr jwt_payload (chars "nonce") with
  | .error e => .error e
  | .ok nonce =>
  match checkTokenField (decide (iss = bridge_data.origin)) (chars "iss") with
  | .error e => .error e
  | .ok _ =>
  match checkTokenField (decide (aud = bridge_data.client_id)) (chars "aud") with
  | .error e => .error e
  | .ok _ =>
  match checkTokenField (decide (nonce = bridge_data.nonce)) (chars "nonce") with
  | .error e => .error e
  | .ok _ =>
  match checkTimeClaims expv iatv now with
  | .error e => .error e
  | .ok _ => identityMatch lower toAscii bridge_data email_addr jwt_payload email

/-! ## Normalization endpoint (src/handlers/normalize.rs) -/

/-- Strip one trailing `'\r'` from a `'\n'`-terminated line, as Rust
`str::lines` does when the terminator was `"\r\n"`. -/
def stripTrailingCR (l : List Char) : List Char :=
  if l.getLast? = some '\r' then l.dropLast else l

/-- Rust `str::lines`, applied to the `'\n'`-split segments: every segment
but the last was terminated by `'\n'` and loses one trailing `'\r'` (a
`"\r\n"` terminator); the last segment is unterminated, keeps a bare
trailing `'\r'`, and is dropped when empty (a trailing `'\n'` yields no
extra empty line). -/
def rustLinesAux : List (List Char) → List (List Char)
  | [] => []
  | [lastSeg] => if lastSeg = [] then [] else [lastSeg]
  | seg :: seg2 :: rest => stripTrailingCR seg :: rustLinesAux (seg2 :: rest)

/-- Rust `str::lines`. -/
def rustLines (s : List Char) : List (List Char) :=
  rustLinesAux (splitOnChar '\n' s)

/-- One line of the endpoint's output: the normalized serialization when
the line parses, the empty string otherwise. -/
def normLine (lower : List Char → List Char)
    (toAscii : List Char → Option (List Char)) (line : List Char) : List Char :=
  match from_str lower toAscii line with
  | .ok addr => addr.serialization
  | .error _ => []

/-- Modelled from the spec: the response constructors `data_response` and
`typed_header` (outside src/) produce a body with headers
`Content-Type: text/plain; charset=utf-8` (`ContentType::text_utf8()`) and
`Cache-Control: no-cache, no-store`. -/
structure HttpResponse where
  body : List Char
  contentType : List Char
  cacheControlNoCache : Bool
  cacheControlNoStore : Bool

/-- `normalize` from src/handlers/normalize.rs. The request body is taken
after `String::from_utf8_lossy` (std), i.e. as the decoded char string. -/
def normalizeHandler (lower : List Char → List Char)
    (toAscii : List Char → Option (List Char)) (body : List Char) :
    HttpResponse :=
  let result :=
    List.intercalate ['\n'] ((rustLines body).map (normLine lower toAscii))
  { body := result
    contentType := chars "text/plain; charset=utf-8"
    cacheControlNoCache := true
    cacheControlNoStore := true }
/-! ## Supporting lemmas: list helpers -/

theorem splitOnChar_ne_nil (sep : Char) (l : List Char) : splitOnChar sep l ≠ [] := by
  induction l with
  | nil => simp [splitOnChar]
  | cons c rest ih =>
    simp only [splitOnChar]
    split
    · simp
    · cases h : splitOnChar sep rest with
      | nil => simp
      | cons s ss => simp

/-- Splitting hops over the first separator when the prefixed part is
separator-free. -/
theorem splitOnChar_append (sep : Char) (a b : List Char) (ha : sep ∉ a) :
    splitOnChar sep (a ++ sep :: b) = a :: splitOnChar sep b := by
  induction a with
  | nil => simp [splitOnChar]
  | cons c rest ih =>
    simp only [List.mem_cons, not_or] at ha
    simp only [List.cons_append, splitOnChar]
    rw [if_neg (by exact fun h => ha.1 h.symm)]
    simp [ih ha.2]

/-- When the whole list is separator-free, splitting returns it whole. -/
theorem splitOnChar_no_sep (sep : Char) (a : List Char) (ha : sep ∉ a) :
    splitOnChar sep a = [a] := by
  induction a with
  | nil => rfl
  | cons c rest ih =>
    simp only [List.mem_cons, not_or] at ha
    simp only [splitOnChar]
    rw [if_neg (by exact fun h => ha.1 h.symm), ih ha.2]

/-- Every segment produced by `splitOnChar` is separator-free. -/
theorem splitOnChar_sep_not_mem (sep : Char) (l : List Char) :
    ∀ s ∈ splitOnChar sep l, sep ∉ s := by
  induction l with
  | nil => intro s hs; simp [splitOnChar] at hs; simp [hs]
  | cons c rest ih =>
    intro s hs
    simp only [splitOnChar] at hs
    split at hs
    · rcases List.mem_cons.mp hs with h | h
      · simp [h]
      · exact ih s h
    · rename_i hne
      cases h : splitOnChar sep rest with
      | nil => exact absurd h (splitOnChar_ne_nil sep rest)
      | cons t ts =>
        rw [h] at hs
        rcases List.mem_cons.mp hs with h2 | h2
        · subst h2
          intro hmem
          rcases List.mem_cons.mp hmem with h3 | h3
          · exact hne h3.symm
          · exact ih t (h ▸ List.mem_cons_self t ts) h3
        · exact ih s (h ▸ List.mem_cons_of_mem t h2)

theorem rfindIdx_not_mem (c : Char) (l : List Char) (h : c ∉ l) :
    rfindIdx c l = none := by
  induction l with
  | nil => rfl
  | cons x xs ih =>
    simp only [List.mem_cons, not_or] at h
    simp only [rfindIdx, ih h.2]
    rw [if_neg (by exact fun he => h.1 he.symm)]

theorem rfindIdx_append_last (c : Char) (a b : List Char) (hb : c ∉ b) :
    rfindIdx c (a ++ c :: b) = some a.length := by
  induction a with
  | nil => simp [rfindIdx, rfindIdx_not_mem c b hb]
  | cons x xs ih => simp [rfindIdx, ih]

theorem take_append_length (a b : List Char) : (a ++ b).take a.length = a := by
  simp

theorem drop_append_length (a b : List Char) : (a ++ b).drop a.length = b := by
  simp
/-! ## Supporting lemmas: EmailAddress -/

theorem EmailAddress.trimPlus_no_plus (l : List Char) : '+' ∉ trimPlus l := by
  induction l with
  | nil => simp [trimPlus]
  | cons c rest ih =>
    simp only [trimPlus]
    split
    · simp
    · rename_i h
      intro hm
      rcases List.mem_cons.mp hm with h2 | h2
      · exact h h2.symm
      · exact ih h2

theorem EmailAddress.trimPlus_eq_self (l : List Char) (h : '+' ∉ l) :
    trimPlus l = l := by
  induction l with
  | nil => rfl
  | cons c rest ih =>
    simp only [List.mem_cons, not_or] at h
    simp only [trimPlus]
    rw [if_neg (by exact fun he => h.1 he.symm), ih h.2]

theorem EmailAddress.stripDots_no_plus (l : List Char) (h : '+' ∉ l) :
    '+' ∉ stripDots l := by
  intro hm
  exact h (List.mem_of_mem_filter hm)

theorem EmailAddress.stripDots_no_dot (l : List Char) : '.' ∉ stripDots l := by
  intro hm
  have := List.of_mem_filter hm
  simp at this

theorem EmailAddress.stripDots_eq_self (l : List Char) (h : '.' ∉ l) :
    stripDots l = l := by
  apply List.filter_eq_self.mpr
  intro c hc
  simp only [decide_eq_true_eq]
  intro he
  exact h (he ▸ hc)

theorem EmailAddress.mapGoogleDomain_idem (d : List Char) :
    mapGoogleDomain (mapGoogleDomain d) = mapGoogleDomain d := by
  unfold mapGoogleDomain
  split
  · rw [if_neg (by decide)]
  · rfl
/-! ## Supporting lemmas: OIDC callback validation -/

theorem Json.as_i64_range (j : Json) (n : Int) (h : j.as_i64 = some n) :
    i64Min ≤ n ∧ n ≤ i64Max := by
  cases j with
  | num m =>
    simp only [Json.as_i64] at h
    split at h
    · rename_i hc
      cases h
      exact hc
    · exact absurd h (by simp)
  | null => exact absurd h (by simp [Json.as_i64])
  | bool b => exact absurd h (by simp [Json.as_i64])
  | str s => exact absurd h (by simp [Json.as_i64])
  | arr xs => exact absurd h (by simp [Json.as_i64])
  | obj fields => exact absurd h (by simp [Json.as_i64])

theorem tryGetTokenI64_ok_inv (payload : Json) (f : List Char) (v : Int)
    (h : tryGetTokenI64 payload f = .ok v) :
    (payload.get f).bind Json.as_i64 = some v := by
  unfold tryGetTokenI64 at h
  split at h
  · rename_i heq
    cases h
    exact heq
  · exact absurd h (by simp)

theorem bind_as_i64_range (o : Option Json) (n : Int)
    (h : o.bind Json.as_i64 = some n) : i64Min ≤ n ∧ n ≤ i64Max := by
  cases o with
  | none => simp at h
  | some j => exact Json.as_i64_range j n (by simpa using h)

/-- With all six claims present and the iss/aud/nonce comparisons passing,
`callbackVerify` reduces to the time checks followed by the identity
match. -/
theorem callbackVerify_reduce (lower : List Char → List Char)
    (toAscii : List Char → Option (List Char)) (bridge_data : OidcBridgeData)
    (email_addr : EmailAddress) (payload : Json) (now : Int)
    (email : List Char) (iatv expv : Int)
    (h1 : (payload.get (chars "iss")).bind Json.as_str = some bridge_data.origin)
    (h2 : (payload.get (chars "aud")).bind Json.as_str = some bridge_data.client_id)
    (h3 : (payload.get (chars "email")).bind Json.as_str = some email)
    (h4 : (payload.get (chars "iat")).bind Json.as_i64 = some iatv)
    (h5 : (payload.get (chars "exp")).bind Json.as_i64 = some expv)
    (h6 : (payload.get (chars "nonce")).bind Json.as_str = some bridge_data.nonce) :
    callbackVerify lower toAscii bridge_data email_addr payload now =
      match checkTimeClaims expv iatv now with
      | .error e => .error e
      | .ok _ => identityMatch lower toAscii bridge_data email_addr payload email := by
  unfold callbackVerify
  simp [tryGetTokenStr, tryGetTokenI64, h1, h2, h3, h4, h5, h6, checkTokenField]

/-- Without i64 overflow, the time check is the plain two-sided leeway
comparison (strict on `exp`, inclusive on `iat`). -/
theorem checkTimeClaims_no_overflow (expv iatv now : Int)
    (hem : i64Min ≤ expv + LEEWAY) (heM : expv + LEEWAY ≤ i64Max)
    (him : i64Min ≤ iatv - LEEWAY) (hiM : iatv - LEEWAY ≤ i64Max) :
    checkTimeClaims expv iatv now =
      if now < expv + LEEWAY then
        if iatv - LEEWAY ≤ now then .ok ()
        else .error (.ProviderInput (chars "iat"))
      else .error (.ProviderInput (chars "exp")) := by
  unfold checkTimeClaims i64CheckedAdd i64CheckedSub checkTokenField
  rw [if_pos ⟨hem, heM⟩, if_pos ⟨him, hiM⟩]
  simp only [Option.getD_some]
  by_cases hc : now < expv + LEEWAY <;> by_cases hc2 : iatv - LEEWAY ≤ now <;>
    simp [hc, hc2]

/-- When `exp + LEEWAY` overflows i64, the clamped bound is `i64::MIN` and
the `exp` check fails. -/
theorem checkTimeClaims_exp_overflow (expv iatv now : Int)
    (hof : i64Max < expv + LEEWAY) (hnow : i64Min ≤ now) :
    checkTimeClaims expv iatv now = .error (.ProviderInput (chars "exp")) := by
  unfold checkTimeClaims i64CheckedAdd checkTokenField
  rw [if_neg (by intro hc; exact absurd hc.2 (not_le.mpr hof))]
  simp only [Option.getD_none]
  rw [if_neg (by simp only [decide_eq_true_eq]; exact not_lt.mpr hnow)]

/-- When `iat - LEEWAY` underflows i64, the clamped bound is `i64::MAX` and
the validation fails (on `iat`, or already on `exp`). -/
theorem checkTimeClaims_iat_underflow (expv iatv now : Int)
    (huf : iatv - LEEWAY < i64Min) (hnowM : now ≤ i64Max) :
    ∃ msg, checkTimeClaims expv iatv now = .error (.ProviderInput msg) := by
  unfold checkTimeClaims i64CheckedSub checkTokenField
  rw [if_neg (by intro hc; exact absurd hc.1 (not_le.mpr huf))]
  simp only [Option.getD_none]
  by_cases hc : now < (i64CheckedAdd expv LEEWAY).getD i64Min
  · refine ⟨chars "iat", ?_⟩
    rw [if_pos (by simpa using hc)]
    have hlt : now < i64Max := by
      rcases lt_or_le now i64Max with h | h
      · exact h
      · exfalso
        have hle : (i64CheckedAdd expv LEEWAY).getD i64Min ≤ i64Max := by
          unfold i64CheckedAdd
          split
          · rename_i hcond
            simpa using hcond.2
          · simp [i64Min, i64Max]
        omega
    rw [if_neg (by simp only [decide_eq_true_eq]; exact not_le.mpr hlt)]
  · exact ⟨chars "exp", by rw [if_neg (by simpa using hc)]⟩

/-- A Portier identity match with the exact address and no
`email_original` claim succeeds. -/
theorem identityMatch_portier_ok (lower : List Char → List Char)
    (toAscii : List Char → Option (List Char)) (bridge_data : OidcBridgeData)
    (email_addr : EmailAddress) (payload : Json) (email : List Char)
    (hrel : bridge_data.link.rel = .Portier)
    (hemail : email = email_addr.serialization)
    (heo : (payload.get (chars "email_original")).bind Json.as_str = none) :
    identityMatch lower toAscii bridge_data email_addr payload email = .ok () := by
  unfold identityMatch
  rw [hrel]
  simp [checkTokenField, hemail, heo]

/-- A successful `callbackVerify` run extracted `exp` and `iat` and passed
the time checks. -/
theorem callbackVerify_ok_time (lower : List Char → List Char)
    (toAscii : List Char → Option (List Char)) (bridge_data : OidcBridgeData)
    (email_addr : EmailAddress) (payload : Json) (now : Int) (u : Unit)
    (h : callbackVerify lower toAscii bridge_data email_addr payload now = .ok u) :
    ∃ ev iv, (payload.get (chars "exp")).bind Json.as_i64 = some ev ∧
      (payload.get (chars "iat")).bind Json.as_i64 = some iv ∧
      checkTimeClaims ev iv now = .ok () := by
  unfold callbackVerify at h
  cases e1 : tryGetTokenStr payload (chars "iss") with
  | error e => rw [e1] at h; exact absurd h (by simp)
  | ok iss =>
  rw [e1] at h
  cases e2 : tryGetTokenStr payload (chars "aud") with
  | error e => rw [e2] at h; exact absurd h (by simp)
  | ok aud =>
  rw [e2] at h
  cases e3 : tryGetTokenStr payload (chars "email") with
  | error e => rw [e3] at h; exact absurd h (by simp)
  | ok email =>
  rw [e3] at h
  cases e4 : tryGetTokenI64 payload (chars "iat") with
  | error e => rw [e4] at h; exact absurd h (by simp)
  | ok iv =>
  rw [e4] at h
  cases e5 : tryGetTokenI64 payload (chars "exp") with
  | error e => rw [e5] at h; exact absurd h (by simp)
  | ok ev =>
  rw [e5] at h
  cases e6 : tryGetTokenStr payload (chars "nonce") with
  | error e => rw [e6] at h; exact absurd h (by simp)
  | ok nonce =>
  rw [e6] at h
  simp only [] at h
  cases c1 : checkTokenField (decide (iss = bridge_data.origin)) (chars "iss") with
  | error e => rw [c1] at h; exact absurd h (by simp)
  | ok u1 =>
  rw [c1] at h
  cases c2 : checkTokenField (decide (aud = bridge_data.client_id)) (chars "aud") with
  | error e => rw [c2] at h; exact absurd h (by simp)
  | ok u2 =>
  rw [c2] at h
  cases c3 : checkTokenField (decide (nonce = bridge_data.nonce)) (chars "nonce") with
  | error e => rw [c3] at h; exact absurd h (by simp)
  | ok u3 =>
  rw [c3] at h
  cases c4 : checkTimeClaims ev iv now with
  | error e => rw [c4] at h; exact absurd h (by simp)
  | ok u4 =>
  exact ⟨ev, iv, tryGetTokenI64_ok_inv payload (chars "exp") ev e5,
    tryGetTokenI64_ok_inv payload (chars "iat") iv e4, by simpa using c4⟩
/-! ## Supporting lemmas: parsing round-trip -/

theorem drop_append_length_succ (a b : List Char) (c : Char) :
    (a ++ c :: b).drop (a.length + 1) = b := by
  have hsplit : a ++ c :: b = (a ++ [c]) ++ b := by simp
  rw [hsplit]
  have hlen : (a ++ [c]).length = a.length + 1 := by simp
  rw [← hlen, drop_append_length]

/-- A successful parse pins down every component and records that all the
domain checks passed. -/
theorem from_str_ok_inv (lower : List Char → List Char)
    (toAscii : List Char → Option (List Char)) (s : List Char)
    (e : EmailAddress) (h : from_str lower toAscii s = .ok e) :
    ∃ idx, rfindIdx '@' s = some idx ∧
      e.localPart = lower (s.take idx) ∧ e.localPart ≠ [] ∧
      toAscii (s.drop (idx + 1)) = some e.domainPart ∧
      e.domainPart ≠ [] ∧ e.domainPart.any is_invalid_domain_char = false ∧
      parsesAsIpv4 e.domainPart = false := by
  unfold from_str at h
  cases hf : rfindIdx '@' s with
  | none => rw [hf] at h; exact absurd h (by simp)
  | some idx =>
    rw [hf] at h
    simp only [] at h
    by_cases hl : lower (s.take idx) = []
    · rw [if_pos hl] at h; exact absurd h (by simp)
    · rw [if_neg hl] at h
      cases ha : toAscii (s.drop (idx + 1)) with
      | none => rw [ha] at h; exact absurd h (by simp)
      | some domain =>
        rw [ha] at h
        simp only [] at h
        by_cases hd : domain = []
        · rw [if_pos hd] at h; exact absurd h (by simp)
        · rw [if_neg hd] at h
          by_cases hc : domain.any is_invalid_domain_char = true
          · rw [if_pos hc] at h; exact absurd h (by simp)
          · rw [if_neg hc] at h
            by_cases hip : parsesAsIpv4 domain = true
            · rw [if_pos hip] at h; exact absurd h (by simp)
            · rw [if_neg hip] at h
              simp only [Except.ok.injEq] at h
              subst h
              exact ⟨idx, rfl, rfl, hl, ha, hd,
                Bool.not_eq_true _ ▸ hc, Bool.not_eq_true _ ▸ hip⟩

/-- A domain that passed the character check contains none of the
rejected characters. -/
theorem not_mem_of_valid_domain (d : List Char) (c : Char)
    (hc : is_invalid_domain_char c = true)
    (h : d.any is_invalid_domain_char = false) : c ∉ d := by
  intro hm
  have hany : d.any is_invalid_domain_char = true :=
    List.any_eq_true.mpr ⟨c, hm, hc⟩
  rw [hany] at h
  exact absurd h (by simp)

/-- A domain that passed the character check contains no `'@'`. -/
theorem no_at_of_valid_domain (d : List Char)
    (h : d.any is_invalid_domain_char = false) : '@' ∉ d :=
  not_mem_of_valid_domain d '@' (by decide) h
/-! ## Supporting lemmas: normalization endpoint -/

/-- Splitting on the separator inverts `intercalate [sep]` for a nonempty
list of separator-free segments. -/
theorem splitOnChar_intercalate (sep : Char) (xs : List (List Char))
    (hne : xs ≠ []) (hfree : ∀ x ∈ xs, sep ∉ x) :
    splitOnChar sep (List.intercalate [sep] xs) = xs := by
  induction xs with
  | nil => contradiction
  | cons a rest ih =>
    cases rest with
    | nil =>
      have h1 : List.intercalate [sep] [a] = a := by
        simp [List.intercalate]
      rw [h1]
      exact splitOnChar_no_sep sep a (hfree a (by simp))
    | cons b rest2 =>
      have hstep : List.intercalate [sep] (a :: b :: rest2) =
          a ++ sep :: List.intercalate [sep] (b :: rest2) := by
        simp [List.intercalate, List.intersperse]
      rw [hstep, splitOnChar_append sep a _ (hfree a (by simp))]
      rw [ih (by simp) (fun x hx => hfree x (List.mem_cons_of_mem a hx))]

/-- Every line produced by `rustLinesAux` comes from a segment, whole or
with its last character dropped, so newline-freedom is preserved. -/
theorem rustLinesAux_no_newline (segs : List (List Char))
    (h : ∀ seg ∈ segs, '\n' ∉ seg) : ∀ l ∈ rustLinesAux segs, '\n' ∉ l := by
  induction segs with
  | nil =>
    intro l hl
    simp [rustLinesAux] at hl
  | cons seg rest ih =>
    intro l hl
    cases rest with
    | nil =>
      simp only [rustLinesAux] at hl
      split at hl
      · simp at hl
      · simp only [List.mem_singleton] at hl
        rw [hl]
        exact h seg (by simp)
    | cons seg2 rest2 =>
      simp only [rustLinesAux] at hl
      rcases List.mem_cons.mp hl with rfl | hl2
      · unfold stripTrailingCR
        split
        · exact fun hm => h seg (by simp) (List.dropLast_subset _ hm)
        · exact h seg (by simp)
      · exact ih (fun x hx => h x (List.mem_cons_of_mem _ hx)) l hl2

/-- Every line produced by `rustLines` is newline-free. -/
theorem rustLines_no_newline (s : List Char) :
    ∀ l ∈ rustLines s, '\n' ∉ l :=
  rustLinesAux_no_newline _ (splitOnChar_sep_not_mem '\n' s)

/-- The output line for a newline-free input line is newline-free, given
that the lowercasing oracle preserves newline-freedom (true of Unicode
lowercasing). -/
theorem normLine_no_newline (lower : List Char → List Char)
    (toAscii : List Char → Option (List Char)) (line : List Char)
    (Hnl : ∀ l, '\n' ∉ l → '\n' ∉ lower l)
    (hline : '\n' ∉ line) : '\n' ∉ normLine lower toAscii line := by
  unfold normLine
  cases hp : from_str lower toAscii line with
  | error e => simp
  | ok addr =>
    obtain ⟨idx, _hidx, hloc, _hlocne, _hdom, _hdomne, hchars, _hipv⟩ :=
      from_str_ok_inv lower toAscii line addr hp
    intro hm
    unfold EmailAddress.serialization at hm
    rcases List.mem_append.mp hm with h | h
    · have hfree : '\n' ∉ line.take idx :=
        fun hmem => hline (List.take_subset idx line hmem)
      exact Hnl _ hfree (hloc ▸ h)
    · rcases List.mem_cons.mp h with h2 | h2
      · exact absurd h2 (by decide)
      · exact not_mem_of_valid_domain _ '\n' (by decide) hchars h2
/-! ## Supporting lemmas: base64 and byte serialization -/

theorem b64DecVal_enc : ∀ k, k < 64 → b64DecVal (b64EncChar k) = some k := by
  decide

theorem b64EncChar_valid : ∀ k, k < 64 →
    b64EncChar k ≠ '\r' ∧ b64EncChar k ≠ '\n' ∧ b64EncChar k ≠ '=' ∧
    b64EncChar k ≠ '.' := by
  decide

theorem to_base64_mem : ∀ (bs : List Nat), (∀ b ∈ bs, b < 256) →
    ∀ c ∈ to_base64 bs, ∃ k, k < 64 ∧ c = b64EncChar k
  | [], _, c, hc => absurd hc (by simp [to_base64])
  | [b1], h, c, hc => by
    have hb1 : b1 < 256 := h b1 (by simp)
    simp only [to_base64, List.mem_cons, List.not_mem_nil, or_false] at hc
    rcases hc with h1 | h1
    · exact ⟨b1 / 4, by omega, h1⟩
    · exact ⟨b1 % 4 * 16, by omega, h1⟩
  | [b1, b2], h, c, hc => by
    have hb1 : b1 < 256 := h b1 (by simp)
    have hb2 : b2 < 256 := h b2 (by simp)
    simp only [to_base64, List.mem_cons, List.not_mem_nil, or_false] at hc
    rcases hc with h1 | h1 | h1
    · exact ⟨b1 / 4, by omega, h1⟩
    · exact ⟨b1 % 4 * 16 + b2 / 16, by omega, h1⟩
    · exact ⟨b2 % 16 * 4, by omega, h1⟩
  | b1 :: b2 :: b3 :: rest, h, c, hc => by
    have hb1 : b1 < 256 := h b1 (by simp)
    have hb2 : b2 < 256 := h b2 (by simp)
    have hb3 : b3 < 256 := h b3 (by simp)
    have hc2 : c ∈ b64EncChar (b1 / 4) :: b64EncChar (b1 % 4 * 16 + b2 / 16) ::
        b64EncChar (b2 % 16 * 4 + b3 / 64) :: b64EncChar (b3 % 64) ::
        to_base64 rest := hc
    simp only [List.mem_cons] at hc2
    rcases hc2 with h1 | h1 | h1 | h1 | h1
    · exact ⟨b1 / 4, by omega, h1⟩
    · exact ⟨b1 % 4 * 16 + b2 / 16, by omega, h1⟩
    · exact ⟨b2 % 16 * 4 + b3 / 64, by omega, h1⟩
    · exact ⟨b3 % 64, by omega, h1⟩
    · exact to_base64_mem rest (fun b hb => h b (by simp [hb])) c h1

theorem to_base64_no_bad (bs : List Nat) (h : ∀ b ∈ bs, b < 256) :
    ∀ c ∈ to_base64 bs, c ≠ '\r' ∧ c ≠ '\n' ∧ c ≠ '=' ∧ c ≠ '.' := by
  intro c hc
  obtain ⟨k, hk, rfl⟩ := to_base64_mem bs h c hc
  exact b64EncChar_valid k hk

theorem takeWhile_of_all {p : Char → Bool} :
    ∀ (l : List Char), (∀ c ∈ l, p c = true) → l.takeWhile p = l := by
  intro l hl
  induction l with
  | nil => rfl
  | cons c rest ih =>
    rw [List.takeWhile_cons, if_pos (hl c (by simp))]
    rw [ih (fun x hx => hl x (by simp [hx]))]

theorem dropWhile_of_all {p : Char → Bool} :
    ∀ (l : List Char), (∀ c ∈ l, p c = true) → l.dropWhile p = [] := by
  intro l hl
  induction l with
  | nil => rfl
  | cons c rest ih =>
    rw [List.dropWhile_cons, if_pos (hl c (by simp))]
    exact ih (fun x hx => hl x (by simp [hx]))

theorem dec_enc_sextets : ∀ (bs : List Nat), (∀ b ∈ bs, b < 256) →
    ∃ sx, (to_base64 bs).mapM b64DecVal = some sx ∧ sextetsToBytes sx = some bs
  | [], _ => ⟨[], rfl, rfl⟩
  | [b1], h => by
    have hb1 : b1 < 256 := h b1 (by simp)
    refine ⟨[b1 / 4, b1 % 4 * 16], ?_, ?_⟩
    · simp only [to_base64, List.mapM_cons, List.mapM_nil,
        b64DecVal_enc (b1 / 4) (by omega), b64DecVal_enc (b1 % 4 * 16) (by omega)]
      rfl
    · show some [b1 / 4 * 4 + b1 % 4 * 16 / 16] = some [b1]
      congr 2
      omega
  | [b1, b2], h => by
    have hb1 : b1 < 256 := h b1 (by simp)
    have hb2 : b2 < 256 := h b2 (by simp)
    refine ⟨[b1 / 4, b1 % 4 * 16 + b2 / 16, b2 % 16 * 4], ?_, ?_⟩
    · simp only [to_base64, List.mapM_cons, List.mapM_nil,
        b64DecVal_enc (b1 / 4) (by omega),
        b64DecVal_enc (b1 % 4 * 16 + b2 / 16) (by omega),
        b64DecVal_enc (b2 % 16 * 4) (by omega)]
      rfl
    · show some [b1 / 4 * 4 + (b1 % 4 * 16 + b2 / 16) / 16,
          (b1 % 4 * 16 + b2 / 16) % 16 * 16 + b2 % 16 * 4 / 4] = some [b1, b2]
      congr 2
      · omega
      · congr 1
        omega
  | b1 :: b2 :: b3 :: rest, h => by
    have hb1 : b1 < 256 := h b1 (by simp)
    have hb2 : b2 < 256 := h b2 (by simp)
    have hb3 : b3 < 256 := h b3 (by simp)
    obtain ⟨sx, hmap, hbytes⟩ :=
      dec_enc_sextets rest (fun b hb => h b (by simp [hb]))
    refine ⟨b1 / 4 :: (b1 % 4 * 16 + b2 / 16) :: (b2 % 16 * 4 + b3 / 64) ::
      b3 % 64 :: sx, ?_, ?_⟩
    · have hstep : to_base64 (b1 :: b2 :: b3 :: rest) =
          b64EncChar (b1 / 4) :: b64EncChar (b1 % 4 * 16 + b2 / 16) ::
          b64EncChar (b2 % 16 * 4 + b3 / 64) :: b64EncChar (b3 % 64) ::
          to_base64 rest := rfl
      rw [hstep]
      simp only [List.mapM_cons,
        b64DecVal_enc (b1 / 4) (by omega),
        b64DecVal_enc (b1 % 4 * 16 + b2 / 16) (by omega),
        b64DecVal_enc (b2 % 16 * 4 + b3 / 64) (by omega),
        b64DecVal_enc (b3 % 64) (by omega), hmap]
      rfl
    · have hstep : sextetsToBytes (b1 / 4 :: (b1 % 4 * 16 + b2 / 16) ::
          (b2 % 16 * 4 + b3 / 64) :: b3 % 64 :: sx) =
          (sextetsToBytes sx).map
            (fun tail => (b1 / 4 * 4 + (b1 % 4 * 16 + b2 / 16) / 16) ::
              ((b1 % 4 * 16 + b2 / 16) % 16 * 16 +
                (b2 % 16 * 4 + b3 / 64) / 4) ::
              ((b2 % 16 * 4 + b3 / 64) % 4 * 64 + b3 % 64) :: tail) := rfl
      rw [hstep, hbytes]
      have e1 : b1 / 4 * 4 + (b1 % 4 * 16 + b2 / 16) / 16 = b1 := by omega
      have e2 : (b1 % 4 * 16 + b2 / 16) % 16 * 16 +
          (b2 % 16 * 4 + b3 / 64) / 4 = b2 := by omega
      have e3 : (b2 % 16 * 4 + b3 / 64) % 4 * 64 + b3 % 64 = b3 := by omega
      simp only [Option.map_some']
      rw [e1, e2, e3]

theorem from_base64_to_base64 (bs : List Nat) (h : ∀ b ∈ bs, b < 256) :
    from_base64 (to_base64 bs) = some bs := by
  have hval := to_base64_no_bad bs h
  unfold from_base64
  rw [List.filter_eq_self.mpr (fun c hc => by
    have := hval c hc
    simp [this.1, this.2.1])]
  rw [dropWhile_of_all (to_base64 bs) (fun c hc => by
    have := hval c hc
    simp [this.2.2.1])]
  rw [takeWhile_of_all (to_base64 bs) (fun c hc => by
    have := hval c hc
    simp [this.2.2.1])]
  obtain ⟨sx, hmap, hbytes⟩ := dec_enc_sextets bs h
  have hmap2 : List.mapM.loop b64DecVal (to_base64 bs) [] = some sx := hmap
  simp [hmap2, hbytes]

theorem natToBytesAux_congr : ∀ (n f1 f2 : Nat), n ≤ f1 → n ≤ f2 →
    natToBytesAux f1 n = natToBytesAux f2 n := by
  intro n
  induction n using Nat.strong_induction_on with
  | _ n ih =>
    intro f1 f2 h1 h2
    match n, f1, f2 with
    | 0, f1, f2 =>
      cases f1 <;> cases f2 <;> rfl
    | m + 1, g1 + 1, g2 + 1 =>
      show natToBytesAux g1 ((m + 1) / 256) ++ _ =
        natToBytesAux g2 ((m + 1) / 256) ++ _
      rw [ih ((m + 1) / 256) (by omega) g1 g2 (by omega) (by omega)]

theorem natToBytes_step (n : Nat) (hn : n ≠ 0) :
    natToBytes n = natToBytes (n / 256) ++ [n % 256] := by
  unfold natToBytes
  match n, hn with
  | m + 1, _ =>
    show natToBytesAux m ((m + 1) / 256) ++ [(m + 1) % 256] = _
    rw [natToBytesAux_congr ((m + 1) / 256) m ((m + 1) / 256) (by omega)
      (Nat.le_refl _)]

theorem bytesToNat_append_one (xs : List Nat) (b : Nat) :
    bytesToNat (xs ++ [b]) = bytesToNat xs * 256 + b := by
  unfold bytesToNat
  rw [List.foldl_append]
  rfl

theorem bytesToNat_natToBytes : ∀ n, bytesToNat (natToBytes n) = n := by
  intro n
  induction n using Nat.strong_induction_on with
  | _ n ih =>
    by_cases hn : n = 0
    · subst hn
      rfl
    · rw [natToBytes_step n hn, bytesToNat_append_one,
        ih (n / 256) (Nat.div_lt_self (Nat.pos_of_ne_zero hn) (by decide))]
      omega

theorem natToBytes_lt : ∀ n, ∀ b ∈ natToBytes n, b < 256 := by
  intro n
  induction n using Nat.strong_induction_on with
  | _ n ih =>
    intro b hb
    by_cases hn : n = 0
    · subst hn
      exact absurd hb (by simp [natToBytes, natToBytesAux])
    · rw [natToBytes_step n hn] at hb
      rcases List.mem_append.mp hb with h1 | h1
      · exact ih (n / 256) (Nat.div_lt_self (Nat.pos_of_ne_zero hn) (by decide))
          b h1
      · simp only [List.mem_singleton] at h1
        omega

theorem char_toNat_lt (c : Char) : c.toNat < 1114112 := by
  have h : c.val.toNat < 0xd800 ∨
      (0xdfff < c.val.toNat ∧ c.val.toNat < 0x110000) := c.valid
  show c.val.toNat < 1114112
  omega

theorem charUtf8_lt (c : Char) : ∀ b ∈ charUtf8 c, b < 256 := by
  have hv := char_toNat_lt c
  intro b hb
  unfold charUtf8 at hb
  split at hb
  · simp at hb
    omega
  · split at hb
    · simp at hb
      omega
    · split at hb
      · simp at hb
        omega
      · simp at hb
        omega

theorem utf8Bytes_lt (s : List Char) : ∀ b ∈ utf8Bytes s, b < 256 := by
  intro b hb
  unfold utf8Bytes at hb
  rw [List.mem_flatMap] at hb
  obtain ⟨c, _, hb2⟩ := hb
  exact charUtf8_lt c b hb2

theorem splitOnChar_three (sep : Char) (a b c : List Char)
    (ha : sep ∉ a) (hb : sep ∉ b) (hc : sep ∉ c) :
    splitOnChar sep (a ++ sep :: (b ++ sep :: c)) = [a, b, c] := by
  rw [splitOnChar_append sep a _ ha, splitOnChar_append sep b c hb,
    splitOnChar_no_sep sep c hc]

theorem take_message (A B C : List Char) :
    (A ++ '.' :: (B ++ '.' :: C)).take (A.length + B.length + 1) =
      A ++ '.' :: B := by
  have h1 : A ++ '.' :: (B ++ '.' :: C) = (A ++ '.' :: B) ++ '.' :: C := by
    simp
  rw [h1]
  have h2 : (A ++ '.' :: B).length = A.length + B.length + 1 := by
    simp only [List.length_append, List.length_cons]
    omega
  rw [← h2, take_append_length]
/-! ## Supporting lemmas: JWS verification -/

theorem public_jwk_get_n (key : NamedKey) :
    ((key.public_jwk).get (chars "n")).bind Json.as_str =
      some (to_base64 (natToBytes key.key.n)) := rfl

theorem public_jwk_get_e (key : NamedKey) :
    ((key.public_jwk).get (chars "e")).bind Json.as_str =
      some (to_base64 (natToBytes key.key.e)) := rfl

/-- When the key set's unique match for the kid is the key's own
`public_jwk`, `jwk_key_set_find` reconstructs exactly its public
components. -/
theorem jwk_key_set_find_public (key : NamedKey) (ks : Json) (arr : List Json)
    (harr : (ks.get (chars "keys")).bind Json.as_array = some arr)
    (hfilter : arr.filter (jwkMatches key.id) = [key.public_jwk]) :
    jwk_key_set_find ks key.id = .ok ⟨key.key.n, key.key.e⟩ := by
  unfold jwk_key_set_find
  rw [harr]
  simp only []
  rw [hfilter]
  simp only []
  rw [public_jwk_get_n]
  simp only []
  rw [from_base64_to_base64 _ (natToBytes_lt key.key.n)]
  simp only []
  rw [public_jwk_get_e]
  simp only []
  rw [from_base64_to_base64 _ (natToBytes_lt key.key.e)]
  simp only []
  rw [bytesToNat_natToBytes, bytesToNat_natToBytes]

/-- The three segments of a `sign_jws` output, as a plain append shape. -/
theorem sign_jws_shape (signOracle : List Nat → List Nat) (key : NamedKey)
    (payload : Json) :
    NamedKey.sign_jws signOracle key payload =
      to_base64 (utf8Bytes (jwsHeader key).toChars) ++ '.' ::
      (to_base64 (utf8Bytes payload.toChars) ++ '.' ::
        to_base64 (signOracle (utf8Bytes
          (to_base64 (utf8Bytes (jwsHeader key).toChars) ++ '.' ::
            to_base64 (utf8Bytes payload.toChars))))) := by
  unfold NamedKey.sign_jws
  simp
/-! ## Supporting lemmas: the four behaviours of `verify_jws`. -/

/-- A token without exactly three '.'-delimited base64 segments is
rejected. -/
theorem verify_rejects_malformed (parseJson : List Nat → Option Json)
    (rsaVerify : RsaPub → List Nat → List Nat → Bool)
    (jws : List Char) (ks : Json)
    (hcase : (splitOnChar '.' jws).length ≠ 3 ∨
      ∃ p ∈ splitOnChar '.' jws, from_base64 p = none) :
    verify_jws parseJson rsaVerify jws ks = .error () := by
  unfold verify_jws
  rcases hsp : splitOnChar '.' jws with _ | ⟨a, _ | ⟨b, _ | ⟨c, _ | ⟨d, t⟩⟩⟩⟩
  · rfl
  · rfl
  · rfl
  · simp only []
    rcases hcase with hlen | ⟨p, hp, hdec⟩
    · rw [hsp] at hlen
      simp at hlen
    · rw [hsp] at hp
      simp only [List.mem_cons, List.not_mem_nil, or_false] at hp
      cases hda : from_base64 a with
      | none => rfl
      | some da =>
        cases hdb : from_base64 b with
        | none => rfl
        | some db =>
          cases hdc : from_base64 c with
          | none => rfl
          | some dc =>
            exfalso
            rcases hp with rfl | rfl | rfl
            · rw [hda] at hdec
              simp at hdec
            · rw [hdb] at hdec
              simp at hdec
            · rw [hdc] at hdec
              simp at hdec
  · rfl

/-- A token whose header `kid` matches zero or more than one key-set entry
(with `use == "sig"`) is rejected. -/
theorem verify_rejects_kid_mismatch (parseJson : List Nat → Option Json)
    (rsaVerify : RsaPub → List Nat → List Nat → Bool)
    (jws : List Char) (ks : Json) (p0 p1 p2 : List Char)
    (d0 d1 d2 : List Nat) (hdr : Json) (kid : List Char) (arr : List Json)
    (hsplit : splitOnChar '.' jws = [p0, p1, p2])
    (hd0 : from_base64 p0 = some d0) (hd1 : from_base64 p1 = some d1)
    (hd2 : from_base64 p2 = some d2)
    (hhdr : parseJson d0 = some hdr)
    (hkid : (hdr.get (chars "kid")).bind Json.as_str = some kid)
    (harr : (ks.get (chars "keys")).bind Json.as_array = some arr)
    (hn : (arr.filter (jwkMatches kid)).length ≠ 1) :
    verify_jws parseJson rsaVerify jws ks = .error () := by
  unfold verify_jws
  rw [hsplit]
  simp only []
  rw [hd0, hd1, hd2]
  simp only []
  rw [hhdr]
  simp only []
  rw [hkid]
  simp only []
  obtain ⟨u, hfind⟩ : ∃ u, jwk_key_set_find ks kid = .error u := by
    unfold jwk_key_set_find
    rw [harr]
    simp only []
    cases hm : arr.filter (jwkMatches kid) with
    | nil => exact ⟨(), rfl⟩
    | cons x xs =>
      cases xs with
      | nil =>
        rw [hm] at hn
        simp at hn
      | cons y ys => exact ⟨(), rfl⟩
  rw [hfind]

/-- A token whose signature the verifier declines is rejected. -/
theorem verify_rejects_bad_signature (parseJson : List Nat → Option Json)
    (rsaVerify : RsaPub → List Nat → List Nat → Bool)
    (jws : List Char) (ks : Json) (p0 p1 p2 : List Char)
    (d0 d1 d2 : List Nat) (hdr : Json) (kid : List Char) (pub : RsaPub)
    (hsplit : splitOnChar '.' jws = [p0, p1, p2])
    (hd0 : from_base64 p0 = some d0) (hd1 : from_base64 p1 = some d1)
    (hd2 : from_base64 p2 = some d2)
    (hhdr : parseJson d0 = some hdr)
    (hkid : (hdr.get (chars "kid")).bind Json.as_str = some kid)
    (hfind : jwk_key_set_find ks kid = .ok pub)
    (hbad : rsaVerify pub
      (utf8Bytes (jws.take (p0.length + p1.length + 1))) d2 = false) :
    verify_jws parseJson rsaVerify jws ks = .error () := by
  unfold verify_jws
  rw [hsplit]
  simp only []
  rw [hd0, hd1, hd2]
  simp only []
  rw [hhdr]
  simp only []
  rw [hkid]
  simp only []
  rw [hfind]
  simp only []
  rw [hbad]
  simp only [Bool.false_eq_true, if_false]

/-- A token signed by `sign_jws` with a key whose `public_jwk` is the key
set's unique match verifies, returning the decoded payload. -/
theorem verify_accepts_signed (parseJson : List Nat → Option Json)
    (rsaVerify : RsaPub → List Nat → List Nat → Bool)
    (signOracle : List Nat → List Nat) (rsa : Rsa)
    (payload : Json) (ks : Json) (arr : List Json) (hdr : Json)
    (harr : (ks.get (chars "keys")).bind Json.as_array = some arr)
    (hfilter : arr.filter (jwkMatches (NamedKey.from_rsa rsa).id) =
      [(NamedKey.from_rsa rsa).public_jwk])
    (hph : parseJson
      (utf8Bytes (jwsHeader (NamedKey.from_rsa rsa)).toChars) = some hdr)
    (hkid : (hdr.get (chars "kid")).bind Json.as_str =
      some (NamedKey.from_rsa rsa).id)
    (hpp : parseJson (utf8Bytes payload.toChars) = some payload)
    (hsb : ∀ m, ∀ b ∈ signOracle m, b < 256)
    (hver : ∀ m, rsaVerify ⟨rsa.n, rsa.e⟩ m (signOracle m) = true) :
    verify_jws parseJson rsaVerify
      (NamedKey.sign_jws signOracle (NamedKey.from_rsa rsa) payload) ks =
      .ok payload := by
  have hAfree : '.' ∉ to_base64 (utf8Bytes (jwsHeader (NamedKey.from_rsa rsa)).toChars) :=
    fun hm => (to_base64_no_bad _ (utf8Bytes_lt _) _ hm).2.2.2 rfl
  have hBfree : '.' ∉ to_base64 (utf8Bytes payload.toChars) :=
    fun hm => (to_base64_no_bad _ (utf8Bytes_lt _) _ hm).2.2.2 rfl
  have hCfree : '.' ∉ to_base64 (signOracle (utf8Bytes
      (to_base64 (utf8Bytes (jwsHeader (NamedKey.from_rsa rsa)).toChars) ++ '.' ::
        to_base64 (utf8Bytes payload.toChars)))) :=
    fun hm => (to_base64_no_bad _ (hsb _) _ hm).2.2.2 rfl
  rw [sign_jws_shape signOracle (NamedKey.from_rsa rsa) payload]
  unfold verify_jws
  rw [splitOnChar_three '.' _ _ _ hAfree hBfree hCfree]
  simp only []
  rw [from_base64_to_base64 _ (utf8Bytes_lt _),
    from_base64_to_base64 _ (utf8Bytes_lt _),
    from_base64_to_base64 _ (hsb _)]
  simp only []
  rw [hph]
  simp only []
  rw [hkid]
  simp only []
  rw [jwk_key_set_find_public (NamedKey.from_rsa rsa) ks arr harr hfilter]
  simp only []
  rw [take_message]
  have hkey : (NamedKey.from_rsa rsa).key = rsa := rfl
  rw [hkey]
  rw [hver]
  simp only [if_true]
  rw [hpp]
/-! ## Claims C6, C5, C3, C2 -/

/-- C6: for every EmailAddress `x`, `normalize_google` is idempotent:
`normalize_google (normalize_google x) = normalize_google x`. -/
theorem C6_normalize_google_idempotent (x : EmailAddress) :
    x.normalize_google.normalize_google = x.normalize_google := by
  unfold EmailAddress.normalize_google
  simp only [EmailAddress.from_parts]
  have hplus : '+' ∉ EmailAddress.stripDots (EmailAddress.trimPlus x.localPart) :=
    EmailAddress.stripDots_no_plus _ (EmailAddress.trimPlus_no_plus _)
  congr 1
  · rw [EmailAddress.trimPlus_eq_self _ hplus,
      EmailAddress.stripDots_eq_self _ (EmailAddress.stripDots_no_dot _)]
  · exact EmailAddress.mapGoogleDomain_idem _

/-- C5 (amended): the `kid` computed by `NamedKey::from_rsa` depends only
on the key's public components: keys agreeing on `e` and `n` (whatever
their private material) get the same id. The original claim's second half
— that keys differing in `e` or `n` always get different ids — is false;
see the counterexample. -/
theorem C5_kid_function_of_public_components (k1 k2 : Rsa)
    (he : k1.e = k2.e) (hn : k1.n = k2.n) :
    (NamedKey.from_rsa k1).id = (NamedKey.from_rsa k2).id := by
  simp [NamedKey.from_rsa, namedKeyId, he, hn]

theorem C5_kid_function_of_public_components_witness :
    (3 : Nat) = 3 ∧ (35 : Nat) = 35 ∧
    (NamedKey.from_rsa ⟨35, 3, 11⟩).id = (NamedKey.from_rsa ⟨35, 3, 27⟩).id :=
  ⟨rfl, rfl, C5_kid_function_of_public_components ⟨35, 3, 11⟩ ⟨35, 3, 27⟩ rfl rfl⟩

/-- C5 counterexample: two keys that differ in both `e` and `n` but share
the same id. The hash input `e.to_vec() ++ "." ++ n.to_vec()` is ambiguous
because the byte 46 (`'.'`) can occur inside a component's big-endian
bytes: (e = 1, n = 11777) and (e = 302, n = 1) both serialize to
`[1, 46, 46, 1]`. -/
theorem C5_distinct_components_same_kid :
    (NamedKey.from_rsa ⟨11777, 1, 0⟩).id = (NamedKey.from_rsa ⟨1, 302, 0⟩).id ∧
    (1 : Nat) ≠ 302 ∧ (11777 : Nat) ≠ 1 := by
  refine ⟨?_, by decide, by decide⟩
  have h : natToBytes (1 : Nat) ++ 46 :: natToBytes (11777 : Nat) =
      natToBytes (302 : Nat) ++ 46 :: natToBytes (1 : Nat) := by decide
  simp only [NamedKey.from_rsa, namedKeyId]
  rw [h]

/-- C3: when the domain has no static override and the webfinger fetch (or
the parsing of its JSON body, both inside `fetch_json_url`) fails, `query`
propagates that error to its caller and never returns a successful (empty
or otherwise) link list. -/
theorem C3_fetch_failure_propagates (app : AppConfig)
    (parseUrl : List Char → Option (List Char)) (u : List Char)
    (e : BrokerError) (email : EmailAddress)
    (hov : app.domain_overrides.find? (fun o => o.1 = email.domainPart) = none)
    (_he : e.isProviderClass = true) :
    webfingerQuery app parseUrl (some u) (.error e) email = .error e ∧
    ∀ links, webfingerQuery app parseUrl (some u) (.error e) email ≠ .ok links := by
  constructor
  · simp [webfingerQuery, hov]
  · intro links
    simp [webfingerQuery, hov]

theorem C3_fetch_failure_propagates_witness :
    webfingerQuery
        { domain_overrides := [], public_url := chars "https://broker.example/" }
        (fun s => some s) (some (chars "https://domain.test/.well-known/webfinger"))
        (.error (.Provider (chars "fetch failed")))
        ⟨chars "user", chars "domain.test"⟩ =
      .error (.Provider (chars "fetch failed")) :=
  (C3_fetch_failure_propagates
    { domain_overrides := [], public_url := chars "https://broker.example/" }
    (fun s => some s) (chars "https://domain.test/.well-known/webfinger")
    (.Provider (chars "fetch failed"))
    ⟨chars "user", chars "domain.test"⟩ rfl rfl).1

/-- C2 counterexample: with a static override whose link's `href` is the
broker's own public URL, `query` returns that link verbatim: the
self-reference filter does not apply to the override path. -/
theorem C2_override_returns_self_link :
    webfingerQuery
        { domain_overrides :=
            [(chars "special.test", [⟨.Portier, chars "https://broker.example/"⟩])],
          public_url := chars "https://broker.example/" }
        (fun s => some s) none (.error .ProviderCancelled)
        ⟨chars "user", chars "special.test"⟩ =
      .ok [⟨.Portier, chars "https://broker.example/"⟩] ∧
    (Link.href ⟨.Portier, chars "https://broker.example/"⟩) =
      chars "https://broker.example/" :=
  ⟨rfl, rfl⟩

/-- C2 (amended): for a domain *without* a configured static override, no
link returned by `query` has an `href` equal to the broker's public URL; a
configured override is returned verbatim and exempt from this filter. -/
theorem C2_no_self_links_without_override (app : AppConfig)
    (parseUrl : List Char → Option (List Char)) (buildUrl : Option (List Char))
    (fetchResult : Except BrokerError DescriptorDef) (email : EmailAddress)
    (links : List Link)
    (hov : app.domain_overrides.find? (fun o => o.1 = email.domainPart) = none)
    (hq : webfingerQuery app parseUrl buildUrl fetchResult email = .ok links) :
    ∀ link ∈ links, link.href ≠ app.public_url := by
  unfold webfingerQuery at hq
  rw [hov] at hq
  match buildUrl with
  | none => simp at hq
  | some _ =>
    match fetchResult with
    | .error e => simp at hq
    | .ok descriptor =>
      simp only [Except.ok.injEq] at hq
      subst hq
      intro link hmem
      have := List.of_mem_filter hmem
      simpa using this

theorem C2_no_self_links_without_override_witness :
    Link.href ⟨.Portier, chars "https://idp.example/"⟩ ≠
      chars "https://broker.example/" :=
  C2_no_self_links_without_override
    { domain_overrides := [], public_url := chars "https://broker.example/" }
    (fun s => some s) (some (chars "u"))
    (.ok ⟨[⟨chars "https://portier.io/specs/auth/1.0/idp",
            chars "https://idp.example/"⟩,
           ⟨chars "https://portier.io/specs/auth/1.0/idp",
            chars "https://broker.example/"⟩,
           ⟨chars "not-a-relation", chars "https://other.example/"⟩]⟩)
    ⟨chars "user", chars "domain.test"⟩
    [⟨.Portier, chars "https://idp.example/"⟩] rfl rfl
    ⟨.Portier, chars "https://idp.example/"⟩
    (List.mem_singleton.mpr rfl)
/-! ## Claims C1, C8, C10 -/

/-- C1 counterexample: a token whose `exp` is exactly at the 30-second
leeway boundary (`exp + 30 = now`, here 70 + 30 = 100) and which passes
every other check is rejected by the callback's `exp` check, not accepted
as the claim states. -/
theorem C1_boundary_token_rejected :
    callbackVerify (fun l => l) (fun d => some d)
        { link := ⟨.Portier, chars "https://idp.test/"⟩,
          origin := chars "https://idp.test",
          client_id := chars "https://broker.test/",
          nonce := chars "N" }
        ⟨chars "user", chars "idp.test"⟩
        (Json.obj
          [(chars "iss", .str (chars "https://idp.test")),
           (chars "aud", .str (chars "https://broker.test/")),
           (chars "email", .str (chars "user@idp.test")),
           (chars "iat", .num 100),
           (chars "exp", .num 70),
           (chars "nonce", .str (chars "N"))])
        100 =
      .error (.ProviderInput (chars "exp")) ∧
    (70 : Int) + 30 = 100 :=
  ⟨rfl, rfl⟩

/-- C1 (amended): the `exp` check is strict at the leeway boundary. For a
token passing the other checks (iss/aud/nonce match, `iat - 30 ≤ now`, a
matching Portier identity, no i64 overflow), the callback succeeds iff
`exp + 30 > now`; in particular `exp + 30 = now` is rejected and
`exp + 30 = now + 1` is accepted. -/
theorem C1_exp_check_strict (lower : List Char → List Char)
    (toAscii : List Char → Option (List Char)) (bridge_data : OidcBridgeData)
    (email_addr : EmailAddress) (payload : Json) (now iatv expv : Int)
    (h1 : (payload.get (chars "iss")).bind Json.as_str = some bridge_data.origin)
    (h2 : (payload.get (chars "aud")).bind Json.as_str = some bridge_data.client_id)
    (h3 : (payload.get (chars "email")).bind Json.as_str =
      some email_addr.serialization)
    (h4 : (payload.get (chars "iat")).bind Json.as_i64 = some iatv)
    (h5 : (payload.get (chars "exp")).bind Json.as_i64 = some expv)
    (h6 : (payload.get (chars "nonce")).bind Json.as_str = some bridge_data.nonce)
    (h7 : (payload.get (chars "email_original")).bind Json.as_str = none)
    (hrel : bridge_data.link.rel = .Portier)
    (hexpM : expv + LEEWAY ≤ i64Max)
    (hiatm : i64Min ≤ iatv - LEEWAY)
    (hiat : iatv - LEEWAY ≤ now) :
    callbackVerify lower toAscii bridge_data email_addr payload now = .ok () ↔
      now < expv + LEEWAY := by
  have hr5 := bind_as_i64_range _ _ h5
  have hr4 := bind_as_i64_range _ _ h4
  have hexpm : i64Min ≤ expv + LEEWAY := by
    have := hr5.1
    simp only [LEEWAY, i64Min] at *
    omega
  have hiatM : iatv - LEEWAY ≤ i64Max := by
    have := hr4.2
    simp only [LEEWAY, i64Max] at *
    omega
  rw [callbackVerify_reduce lower toAscii bridge_data email_addr payload now
    email_addr.serialization iatv expv h1 h2 h3 h4 h5 h6]
  rw [checkTimeClaims_no_overflow expv iatv now hexpm hexpM hiatm hiatM]
  by_cases hc : now < expv + LEEWAY
  · rw [if_pos hc, if_pos hiat]
    simp only []
    rw [identityMatch_portier_ok lower toAscii bridge_data email_addr payload
      email_addr.serialization hrel rfl h7]
    simp [hc]
  · rw [if_neg hc]
    simp [hc]

theorem C1_exp_check_strict_witness :
    (callbackVerify (fun l => l) (fun d => some d)
        { link := ⟨.Portier, chars "https://idp.test/"⟩,
          origin := chars "https://idp.test",
          client_id := chars "https://broker.test/",
          nonce := chars "N" }
        ⟨chars "user", chars "idp.test"⟩
        (Json.obj
          [(chars "iss", .str (chars "https://idp.test")),
           (chars "aud", .str (chars "https://broker.test/")),
           (chars "email", .str (chars "user@idp.test")),
           (chars "iat", .num 50),
           (chars "exp", .num 70),
           (chars "nonce", .str (chars "N"))])
        50 = .ok () ↔ (50 : Int) < 70 + LEEWAY) :=
  C1_exp_check_strict (fun l => l) (fun d => some d)
    { link := ⟨.Portier, chars "https://idp.test/"⟩,
      origin := chars "https://idp.test",
      client_id := chars "https://broker.test/",
      nonce := chars "N" }
    ⟨chars "user", chars "idp.test"⟩
    (Json.obj
      [(chars "iss", .str (chars "https://idp.test")),
       (chars "aud", .str (chars "https://broker.test/")),
       (chars "email", .str (chars "user@idp.test")),
       (chars "iat", .num 50),
       (chars "exp", .num 70),
       (chars "nonce", .str (chars "N"))])
    50 50 70 rfl rfl rfl rfl rfl rfl rfl rfl (by decide) (by decide) (by decide)

/-- C8: once the signature and the iss/aud/nonce/exp/iat checks have
passed, the identity match branches on the stored link's relation. For a
Portier link the flow succeeds iff the token's `email` equals the stored
address's serialization and any present `email_original` claim equals it
too; for a Google link it succeeds iff the token's `email` parses and its
Google-normalized form equals the Google-normalized stored address
(serialization equality, as Rust `PartialEq`). -/
theorem C8_identity_match_by_relation (lower : List Char → List Char)
    (toAscii : List Char → Option (List Char)) (bridge_data : OidcBridgeData)
    (email_addr : EmailAddress) (payload : Json) (now iatv expv : Int)
    (email : List Char)
    (h1 : (payload.get (chars "iss")).bind Json.as_str = some bridge_data.origin)
    (h2 : (payload.get (chars "aud")).bind Json.as_str = some bridge_data.client_id)
    (h3 : (payload.get (chars "email")).bind Json.as_str = some email)
    (h4 : (payload.get (chars "iat")).bind Json.as_i64 = some iatv)
    (h5 : (payload.get (chars "exp")).bind Json.as_i64 = some expv)
    (h6 : (payload.get (chars "nonce")).bind Json.as_str = some bridge_data.nonce)
    (htime : checkTimeClaims expv iatv now = .ok ()) :
    (bridge_data.link.rel = .Portier →
      (callbackVerify lower toAscii bridge_data email_addr payload now = .ok () ↔
        (email = email_addr.serialization ∧
          ∀ eo, (payload.get (chars "email_original")).bind Json.as_str = some eo →
            eo = email_addr.serialization))) ∧
    (bridge_data.link.rel = .Google →
      (callbackVerify lower toAscii bridge_data email_addr payload now = .ok () ↔
        (∃ e2, from_str lower toAscii email = .ok e2 ∧
          e2.normalize_google.serialization =
            email_addr.normalize_google.serialization))) := by
  rw [callbackVerify_reduce lower toAscii bridge_data email_addr payload now
    email iatv expv h1 h2 h3 h4 h5 h6, htime]
  simp only []
  constructor
  · intro hrel
    unfold identityMatch
    rw [hrel]
    by_cases hm : email = email_addr.serialization
    · simp only [checkTokenField, hm, decide_True, if_true]
      cases heo : (payload.get (chars "email_original")).bind Json.as_str with
      | none => simp
      | some eo =>
        by_cases he2 : eo = email_addr.serialization <;> simp [he2]
    · simp [checkTokenField, hm]
  · intro hrel
    unfold identityMatch
    rw [hrel]
    cases hp : from_str lower toAscii email with
    | error e => simp [hp]
    | ok e2 =>
      by_cases hg : e2.normalize_google.serialization =
          email_addr.normalize_google.serialization <;>
        simp [checkTokenField, EmailAddress.beqSer, hg]

theorem C8_identity_match_by_relation_witness :
    (Link.rel ⟨.Portier, chars "https://idp.test/"⟩ = .Portier →
      (callbackVerify (fun l => l) (fun d => some d)
          { link := ⟨.Portier, chars "https://idp.test/"⟩,
            origin := chars "https://idp.test",
            client_id := chars "https://broker.test/",
            nonce := chars "N" }
          ⟨chars "user", chars "idp.test"⟩
          (Json.obj
            [(chars "iss", .str (chars "https://idp.test")),
             (chars "aud", .str (chars "https://broker.test/")),
             (chars "email", .str (chars "user@idp.test")),
             (chars "iat", .num 50),
             (chars "exp", .num 70),
             (chars "nonce", .str (chars "N"))])
          50 = .ok () ↔
        (chars "user@idp.test" =
            (⟨chars "user", chars "idp.test"⟩ : EmailAddress).serialization ∧
          ∀ eo, ((Json.obj
            [(chars "iss", .str (chars "https://idp.test")),
             (chars "aud", .str (chars "https://broker.test/")),
             (chars "email", .str (chars "user@idp.test")),
             (chars "iat", .num 50),
             (chars "exp", .num 70),
             (chars "nonce", .str (chars "N"))]).get
              (chars "email_original")).bind Json.as_str = some eo →
            eo = (⟨chars "user", chars "idp.test"⟩ : EmailAddress).serialization))) ∧
    (Link.rel ⟨.Portier, chars "https://idp.test/"⟩ = .Google →
      (callbackVerify (fun l => l) (fun d => some d)
          { link := ⟨.Portier, chars "https://idp.test/"⟩,
            origin := chars "https://idp.test",
            client_id := chars "https://broker.test/",
            nonce := chars "N" }
          ⟨chars "user", chars "idp.test"⟩
          (Json.obj
            [(chars "iss", .str (chars "https://idp.test")),
             (chars "aud", .str (chars "https://broker.test/")),
             (chars "email", .str (chars "user@idp.test")),
             (chars "iat", .num 50),
             (chars "exp", .num 70),
             (chars "nonce", .str (chars "N"))])
          50 = .ok () ↔
        (∃ e2, from_str (fun l => l) (fun d => some d)
            (chars "user@idp.test") = .ok e2 ∧
          e2.normalize_google.serialization =
            (⟨chars "user", chars "idp.test"⟩ :
              EmailAddress).normalize_google.serialization))) :=
  C8_identity_match_by_relation (fun l => l) (fun d => some d)
    { link := ⟨.Portier, chars "https://idp.test/"⟩,
      origin := chars "https://idp.test",
      client_id := chars "https://broker.test/",
      nonce := chars "N" }
    ⟨chars "user", chars "idp.test"⟩
    (Json.obj
      [(chars "iss", .str (chars "https://idp.test")),
       (chars "aud", .str (chars "https://broker.test/")),
       (chars "email", .str (chars "user@idp.test")),
       (chars "iat", .num 50),
       (chars "exp", .num 70),
       (chars "nonce", .str (chars "N"))])
    50 50 70 (chars "user@idp.test") rfl rfl rfl rfl rfl rfl rfl

/-- C10: in the callback's time-claim validation, i64 overflow always leads
to rejection. When `exp + 30` exceeds `i64::MAX` the clamped expiry is
`i64::MIN`; when `iat - 30` is below `i64::MIN` the clamped issue time is
`i64::MAX`; in either case the callback cannot succeed (for any real clock
value `now` in i64 range). -/
theorem C10_overflow_always_rejected (lower : List Char → List Char)
    (toAscii : List Char → Option (List Char)) (bridge_data : OidcBridgeData)
    (email_addr : EmailAddress) (payload : Json) (now iatv expv : Int)
    (h5 : (payload.get (chars "exp")).bind Json.as_i64 = some expv)
    (h4 : (payload.get (chars "iat")).bind Json.as_i64 = some iatv)
    (hnlo : i64Min ≤ now) (hnhi : now ≤ i64Max) :
    (i64Max < expv + LEEWAY →
      (i64CheckedAdd expv LEEWAY).getD i64Min = i64Min) ∧
    (iatv - LEEWAY < i64Min →
      (i64CheckedSub iatv LEEWAY).getD i64Max = i64Max) ∧
    ((i64Max < expv + LEEWAY ∨ iatv - LEEWAY < i64Min) →
      callbackVerify lower toAscii bridge_data email_addr payload now ≠
        .ok ()) := by
  refine ⟨?_, ?_, ?_⟩
  · intro hof
    unfold i64CheckedAdd
    rw [if_neg (by intro hc; exact absurd hc.2 (not_le.mpr hof))]
    rfl
  · intro huf
    unfold i64CheckedSub
    rw [if_neg (by intro hc; exact absurd hc.1 (not_le.mpr huf))]
    rfl
  · intro hcase h
    obtain ⟨ev, iv, hev, hiv, htime⟩ :=
      callbackVerify_ok_time lower toAscii bridge_data email_addr payload now () h
    have hevq : ev = expv := by
      have := hev ▸ h5
      exact (Option.some.inj this).symm ▸ rfl
    have hivq : iv = iatv := by
      have := hiv ▸ h4
      exact (Option.some.inj this).symm ▸ rfl
    subst hevq hivq
    rcases hcase with hof | huf
    · rw [checkTimeClaims_exp_overflow ev iv now hof hnlo] at htime
      exact absurd htime (by simp)
    · obtain ⟨msg, hmsg⟩ := checkTimeClaims_iat_underflow ev iv now huf hnhi
      rw [hmsg] at htime
      exact absurd htime (by simp)

theorem C10_overflow_always_rejected_witness :
    ((i64Max < (9223372036854775807 : Int) + LEEWAY →
      (i64CheckedAdd 9223372036854775807 LEEWAY).getD i64Min = i64Min) ∧
    ((-9223372036854775808 : Int) - LEEWAY < i64Min →
      (i64CheckedSub (-9223372036854775808) LEEWAY).getD i64Max = i64Max) ∧
    ((i64Max < (9223372036854775807 : Int) + LEEWAY ∨
        (-9223372036854775808 : Int) - LEEWAY < i64Min) →
      callbackVerify (fun l => l) (fun d => some d)
          { link := ⟨.Portier, chars "https://idp.test/"⟩,
            origin := chars "https://idp.test",
            client_id := chars "https://broker.test/",
            nonce := chars "N" }
          ⟨chars "user", chars "idp.test"⟩
          (Json.obj
            [(chars "iss", .str (chars "https://idp.test")),
             (chars "aud", .str (chars "https://broker.test/")),
             (chars "email", .str (chars "user@idp.test")),
             (chars "iat", .num (-9223372036854775808)),
             (chars "exp", .num 9223372036854775807),
             (chars "nonce", .str (chars "N"))])
          100 ≠ .ok ())) :=
  C10_overflow_always_rejected (fun l => l) (fun d => some d)
    { link := ⟨.Portier, chars "https://idp.test/"⟩,
      origin := chars "https://idp.test",
      client_id := chars "https://broker.test/",
      nonce := chars "N" }
    ⟨chars "user", chars "idp.test"⟩
    (Json.obj
      [(chars "iss", .str (chars "https://idp.test")),
       (chars "aud", .str (chars "https://broker.test/")),
       (chars "email", .str (chars "user@idp.test")),
       (chars "iat", .num (-9223372036854775808)),
       (chars "exp", .num 9223372036854775807),
       (chars "nonce", .str (chars "N"))])
    100 (-9223372036854775808) 9223372036854775807
    (by decide) (by decide) (by decide) (by decide)
/-! ## Claim C7 -/

/-- C7: parsing is idempotent on its own output. For every input that
parses successfully, re-parsing the serialization succeeds and returns the
same address, so `parse (serialize (parse s)) = parse s`. The oracles for
the external crates carry their documented properties as hypotheses:
Unicode lowercasing is idempotent, and UTS-46 `domain_to_ascii` output is
a fixed point of the mapping. -/
theorem C7_parse_serialize_roundtrip (lower : List Char → List Char)
    (toAscii : List Char → Option (List Char))
    (Hidem : ∀ l, lower (lower l) = lower l)
    (Hfix : ∀ d d2, toAscii d = some d2 → toAscii d2 = some d2)
    (s : List Char) (e : EmailAddress)
    (h : from_str lower toAscii s = .ok e) :
    from_str lower toAscii e.serialization = .ok e ∧
    from_str lower toAscii e.serialization = from_str lower toAscii s := by
  obtain ⟨idx, _hidx, hloc, hlocne, hdom, hdomne, hchars, hipv⟩ :=
    from_str_ok_inv lower toAscii s e h
  have hat : '@' ∉ e.domainPart := no_at_of_valid_domain _ hchars
  have hfirst : from_str lower toAscii e.serialization = .ok e := by
    show from_str lower toAscii (e.localPart ++ '@' :: e.domainPart) = .ok e
    unfold from_str
    rw [rfindIdx_append_last '@' e.localPart e.domainPart hat]
    simp only []
    rw [take_append_length e.localPart ('@' :: e.domainPart)]
    have hll : lower e.localPart = e.localPart := by
      rw [hloc]
      exact Hidem _
    rw [hll, if_neg hlocne]
    rw [drop_append_length_succ e.localPart e.domainPart '@']
    rw [Hfix _ _ hdom]
    simp only []
    rw [if_neg hdomne, hchars]
    simp only [Bool.false_eq_true, if_false]
    rw [hipv]
    simp only [Bool.false_eq_true, if_false]
    rfl
  exact ⟨hfirst, by rw [hfirst, h]⟩

theorem C7_parse_serialize_roundtrip_witness :
    from_str (fun l => l) (fun d => some d)
        (EmailAddress.serialization ⟨chars "user", chars "idp.test"⟩) =
      .ok ⟨chars "user", chars "idp.test"⟩ :=
  (C7_parse_serialize_roundtrip (fun l => l) (fun d => some d)
    (fun _ => rfl) (fun _ _ _ => rfl)
    (chars "user@idp.test") ⟨chars "user", chars "idp.test"⟩ rfl).1
/-! ## Claim C9 -/

/-- C9: the normalization endpoint maps the lossily decoded body line by
line, in order — splitting the response body on `'\n'` recovers exactly one
output segment per input line, each the normalized serialization when the
line parses and empty when it does not (for an empty line list the body is
empty) — and the response carries `text/plain; charset=utf-8` with caching
disabled. The lowercasing oracle is assumed to preserve newline-freedom
(true of Unicode lowercasing). -/
theorem C9_normalize_per_line (lower : List Char → List Char)
    (toAscii : List Char → Option (List Char))
    (Hnl : ∀ l, '\n' ∉ l → '\n' ∉ lower l) (body : List Char) :
    (normalizeHandler lower toAscii body).contentType =
      chars "text/plain; charset=utf-8" ∧
    (normalizeHandler lower toAscii body).cacheControlNoCache = true ∧
    (normalizeHandler lower toAscii body).cacheControlNoStore = true ∧
    ((rustLines body = [] ∧ (normalizeHandler lower toAscii body).body = []) ∨
      splitOnChar '\n' (normalizeHandler lower toAscii body).body =
        (rustLines body).map (normLine lower toAscii)) := by
  refine ⟨rfl, rfl, rfl, ?_⟩
  cases hl : rustLines body with
  | nil =>
    left
    refine ⟨rfl, ?_⟩
    show List.intercalate ['\n'] ((rustLines body).map (normLine lower toAscii)) = []
    rw [hl]
    simp [List.intercalate]
  | cons a rest =>
    right
    have hbody : (normalizeHandler lower toAscii body).body =
        List.intercalate ['\n'] ((rustLines body).map (normLine lower toAscii)) :=
      rfl
    rw [hbody, hl]
    apply splitOnChar_intercalate
    · simp
    · intro x hx
      rw [List.mem_map] at hx
      obtain ⟨line, hline, hmap⟩ := hx
      have hline2 : line ∈ rustLines body := by
        rw [hl]
        exact hline
      exact hmap ▸ normLine_no_newline lower toAscii line Hnl
        (rustLines_no_newline body line hline2)

theorem C9_normalize_per_line_witness :
    (normalizeHandler (fun l => l) (fun d => some d)
        (chars "a@b.test\r\nx@y.test\r")).contentType =
      chars "text/plain; charset=utf-8" ∧
    (normalizeHandler (fun l => l) (fun d => some d)
        (chars "a@b.test\r\nx@y.test\r")).cacheControlNoCache = true ∧
    (normalizeHandler (fun l => l) (fun d => some d)
        (chars "a@b.test\r\nx@y.test\r")).cacheControlNoStore = true ∧
    ((rustLines (chars "a@b.test\r\nx@y.test\r") = [] ∧
        (normalizeHandler (fun l => l) (fun d => some d)
          (chars "a@b.test\r\nx@y.test\r")).body = []) ∨
      splitOnChar '\n'
          (normalizeHandler (fun l => l) (fun d => some d)
            (chars "a@b.test\r\nx@y.test\r")).body =
        (rustLines (chars "a@b.test\r\nx@y.test\r")).map
          (normLine (fun l => l) (fun d => some d))) :=
  C9_normalize_per_line (fun l => l) (fun d => some d) (fun _ h => h)
    (chars "a@b.test\r\nx@y.test\r")
/-! ## Claim C4 -/

/-- C4: `verify_jws` fails for every token that is not exactly three
'.'-delimited base64url segments; fails for every token whose header `kid`
matches zero or more than one key-set entry with `use == "sig"`; fails for
every token whose signature the verifier rejects; and returns the decoded
payload for a token RS256-signed by a key whose `public_jwk()` is the key
set's unique matching entry (the serde_json parser and the openssl
signer/verifier are oracles, with the signer/verifier coherence as a
hypothesis). -/
theorem C4_verify_jws_behaviour :
    (∀ (parseJson : List Nat → Option Json)
        (rsaVerify : RsaPub → List Nat → List Nat → Bool)
        (jws : List Char) (ks : Json),
      ((splitOnChar '.' jws).length ≠ 3 ∨
        ∃ p ∈ splitOnChar '.' jws, from_base64 p = none) →
      verify_jws parseJson rsaVerify jws ks = .error ()) ∧
    (∀ (parseJson : List Nat → Option Json)
        (rsaVerify : RsaPub → List Nat → List Nat → Bool)
        (jws : List Char) (ks : Json) (p0 p1 p2 : List Char)
        (d0 d1 d2 : List Nat) (hdr : Json) (kid : List Char)
        (arr : List Json),
      splitOnChar '.' jws = [p0, p1, p2] →
      from_base64 p0 = some d0 → from_base64 p1 = some d1 →
      from_base64 p2 = some d2 →
      parseJson d0 = some hdr →
      (hdr.get (chars "kid")).bind Json.as_str = some kid →
      (ks.get (chars "keys")).bind Json.as_array = some arr →
      (arr.filter (jwkMatches kid)).length ≠ 1 →
      verify_jws parseJson rsaVerify jws ks = .error ()) ∧
    (∀ (parseJson : List Nat → Option Json)
        (rsaVerify : RsaPub → List Nat → List Nat → Bool)
        (jws : List Char) (ks : Json) (p0 p1 p2 : List Char)
        (d0 d1 d2 : List Nat) (hdr : Json) (kid : List Char) (pub : RsaPub),
      splitOnChar '.' jws = [p0, p1, p2] →
      from_base64 p0 = some d0 → from_base64 p1 = some d1 →
      from_base64 p2 = some d2 →
      parseJson d0 = some hdr →
      (hdr.get (chars "kid")).bind Json.as_str = some kid →
      jwk_key_set_find ks kid = .ok pub →
      rsaVerify pub
        (utf8Bytes (jws.take (p0.length + p1.length + 1))) d2 = false →
      verify_jws parseJson rsaVerify jws ks = .error ()) ∧
    (∀ (parseJson : List Nat → Option Json)
        (rsaVerify : RsaPub → List Nat → List Nat → Bool)
        (signOracle : List Nat → List Nat) (rsa : Rsa)
        (payload : Json) (ks : Json) (arr : List Json) (hdr : Json),
      (ks.get (chars "keys")).bind Json.as_array = some arr →
      arr.filter (jwkMatches (NamedKey.from_rsa rsa).id) =
        [(NamedKey.from_rsa rsa).public_jwk] →
      parseJson
        (utf8Bytes (jwsHeader (NamedKey.from_rsa rsa)).toChars) = some hdr →
      (hdr.get (chars "kid")).bind Json.as_str =
        some (NamedKey.from_rsa rsa).id →
      parseJson (utf8Bytes payload.toChars) = some payload →
      (∀ m, ∀ b ∈ signOracle m, b < 256) →
      (∀ m, rsaVerify ⟨rsa.n, rsa.e⟩ m (signOracle m) = true) →
      verify_jws parseJson rsaVerify
        (NamedKey.sign_jws signOracle (NamedKey.from_rsa rsa) payload) ks =
        .ok payload) :=
  ⟨verify_rejects_malformed, verify_rejects_kid_mismatch,
    verify_rejects_bad_signature, verify_accepts_signed⟩

theorem C4_verify_jws_behaviour_witness :
    verify_jws (fun _ => none) (fun _ _ _ => true) (chars "ab") Json.null =
      .error () ∧
    verify_jws (fun _ => some (Json.obj [(chars "kid", Json.str (chars "k"))]))
      (fun _ _ _ => true) (chars "AA.AA.AA")
      (Json.obj [(chars "keys", Json.arr [])]) = .error () ∧
    verify_jws (fun _ => some (Json.obj [(chars "kid", Json.str (chars "k"))]))
      (fun _ _ _ => false) (chars "AA.AA.AA")
      (Json.obj [(chars "keys", Json.arr
        [Json.obj [(chars "kid", Json.str (chars "k")),
                   (chars "use", Json.str (chars "sig")),
                   (chars "n", Json.str []),
                   (chars "e", Json.str [])]])]) = .error () ∧
    verify_jws
      (fun bs =>
        if bs = utf8Bytes (jwsHeader (NamedKey.from_rsa ⟨5, 3, 0⟩)).toChars
        then some (jwsHeader (NamedKey.from_rsa ⟨5, 3, 0⟩))
        else if bs = utf8Bytes (Json.obj []).toChars then some (Json.obj [])
        else none)
      (fun _ _ _ => true)
      (NamedKey.sign_jws (fun _ => []) (NamedKey.from_rsa ⟨5, 3, 0⟩)
        (Json.obj []))
      (Json.obj [(chars "keys",
        Json.arr [(NamedKey.from_rsa ⟨5, 3, 0⟩).public_jwk])]) =
      .ok (Json.obj []) :=
  ⟨C4_verify_jws_behaviour.1 (fun _ => none) (fun _ _ _ => true)
      (chars "ab") Json.null (Or.inl (by decide)),
   C4_verify_jws_behaviour.2.1
      (fun _ => some (Json.obj [(chars "kid", Json.str (chars "k"))]))
      (fun _ _ _ => true) (chars "AA.AA.AA")
      (Json.obj [(chars "keys", Json.arr [])])
      (chars "AA") (chars "AA") (chars "AA") [0] [0] [0]
      (Json.obj [(chars "kid", Json.str (chars "k"))]) (chars "k") []
      (by decide) rfl rfl rfl rfl rfl rfl (by decide),
   C4_verify_jws_behaviour.2.2.1
      (fun _ => some (Json.obj [(chars "kid", Json.str (chars "k"))]))
      (fun _ _ _ => false) (chars "AA.AA.AA")
      (Json.obj [(chars "keys", Json.arr
        [Json.obj [(chars "kid", Json.str (chars "k")),
                   (chars "use", Json.str (chars "sig")),
                   (chars "n", Json.str []),
                   (chars "e", Json.str [])]])])
      (chars "AA") (chars "AA") (chars "AA") [0] [0] [0]
      (Json.obj [(chars "kid", Json.str (chars "k"))]) (chars "k") ⟨0, 0⟩
      (by decide) rfl rfl rfl rfl rfl rfl rfl,
   C4_verify_jws_behaviour.2.2.2
      (fun bs =>
        if bs = utf8Bytes (jwsHeader (NamedKey.from_rsa ⟨5, 3, 0⟩)).toChars
        then some (jwsHeader (NamedKey.from_rsa ⟨5, 3, 0⟩))
        else if bs = utf8Bytes (Json.obj []).toChars then some (Json.obj [])
        else none)
      (fun _ _ _ => true) (fun _ => []) ⟨5, 3, 0⟩ (Json.obj [])
      (Json.obj [(chars "keys",
        Json.arr [(NamedKey.from_rsa ⟨5, 3, 0⟩).public_jwk])])
      [(NamedKey.from_rsa ⟨5, 3, 0⟩).public_jwk]
      (jwsHeader (NamedKey.from_rsa ⟨5, 3, 0⟩))
      rfl rfl rfl rfl rfl
      (fun m b hb => absurd hb (List.not_mem_nil b))
      (fun m => rfl)⟩
